import Mathlib

/-!
Shallow embedding of the cost-model calculation engine
(`src/engine/CostCalculationEngine.ts` together with the configuration
types of `src/config/cost-model-config.ts`).

Conventions of the embedding:
* JavaScript `number` is modelled by `ℚ` wherever the source only performs
  field arithmetic and comparisons; the NPV/IRR computations, which use
  `Math.pow` with fractional exponents, are modelled over `ℝ` with `rpow`.
* `x / 0` is `0` in Lean's `ℚ`/`ℝ`, whereas JavaScript produces `±Infinity`
  or `NaN`.  Claims about non-finite results are therefore settled by
  exhibiting the zero denominator explicitly.
* JavaScript `Date` values are modelled as `Int` epoch milliseconds.
* `a || b` on numbers (which substitutes `b` when `a` is `0`) is `jsOrNum`;
  `rates[k] || d` on a possibly-absent key is `jsOr`.
* Fallible code paths (the `penetrationRate[1]` fallback, which in
  JavaScript throws a `TypeError` when the entry is `undefined`) are
  modelled with `Option`.
-/

/-- JavaScript `a || b` for a number `a`: `0` is falsy. -/
def jsOrNum (a b : ℚ) : ℚ := if a = 0 then b else a

/-- JavaScript `m[k] || b` for a possibly-missing numeric field. -/
def jsOr (a : Option ℚ) (b : ℚ) : ℚ :=
  match a with
  | none => b
  | some x => if x = 0 then b else x

/-- Character-list prefix test (used to model `String.prototype.includes`). -/
def listStartsWith : List Char → List Char → Bool
  | [], _ => true
  | _ :: _, [] => false
  | p :: ps, c :: cs => p = c && listStartsWith ps cs

/-- Substring containment on character lists. -/
def listIncludes (pat : List Char) : List Char → Bool
  | [] => listStartsWith pat []
  | c :: cs => listStartsWith pat (c :: cs) || listIncludes pat cs

/-- JavaScript `s.includes(pat)`. -/
def strIncludes (s pat : String) : Bool := listIncludes pat.data s.data

/-- JavaScript `s.toLowerCase()` (character-wise ASCII lowering; the rock
types and currency codes of this model are ASCII). -/
def strToLower (s : String) : String := String.mk (s.data.map Char.toLower)

/-- JavaScript `s.trim()`: leading and trailing whitespace removed. -/
def strTrim (s : String) : String :=
  String.mk
    (((s.data.dropWhile Char.isWhitespace).reverse.dropWhile Char.isWhitespace).reverse)

-- ===========================================================================
-- CONFIG layer (cost-model-config.ts)
-- ===========================================================================

/-- `FXRates.rates`: per-1-USD rates of the four configured currencies. -/
structure FXRateTable where
  CAD : ℚ
  EUR : ℚ
  AUD : ℚ
  GBP : ℚ
deriving DecidableEq, Repr

/-- `rates[c as keyof typeof rates]`: lookup of an arbitrary currency key in
the four-key rate record; unknown keys are `undefined` (`none`). -/
def fxLookup (t : FXRateTable) (c : String) : Option ℚ :=
  if c = "CAD" then some t.CAD
  else if c = "EUR" then some t.EUR
  else if c = "AUD" then some t.AUD
  else if c = "GBP" then some t.GBP
  else none

/-- One entry of `ProjectParameters.penetrationRate`. -/
structure PenRateEntry where
  metersPerHour : ℚ
  rockType : String
deriving DecidableEq, Repr

structure Availability where
  planned : ℚ
  mechanical : ℚ
  operational : ℚ
deriving DecidableEq, Repr

structure LifeOfMine where
  years : ℕ
  startYear : ℕ
deriving DecidableEq, Repr

structure ProjectParameters where
  lifeOfMine : LifeOfMine
  penetrationRate : List PenRateEntry
  availability : Availability
deriving DecidableEq, Repr

/-- `EquipmentItem` (fields the engine reads).  `powerKW` is the optional
`specs.powerKW`. -/
structure EquipmentItem where
  itemCode : String
  baseCost : ℚ
  currency : String
  powerKW : Option ℚ
  usefulLifeYears : ℚ
  salvageValue : ℚ
deriving DecidableEq, Repr

structure EquipmentCatalog where
  items : List EquipmentItem
deriving DecidableEq, Repr

structure LaborRole where
  roleCode : String
  annualRate : ℚ
  currency : String
  utilizationFactor : ℚ
  burdenRate : ℚ
deriving DecidableEq, Repr

structure LaborCatalog where
  roles : List LaborRole
deriving DecidableEq, Repr

/-- One margin rule; `validFrom`/`validTo` are `Date` values modelled as
epoch milliseconds (`validTo` is optional). -/
structure MarginRule where
  costCategory : String
  marginPercent : ℚ
  validFrom : Int
  validTo : Option Int
deriving DecidableEq, Repr

/-- One risk-premium rule.  The source field `attribute` is a reserved word
in Lean and is rendered here as `attr`. -/
structure RiskPremiumRule where
  attr : String
  condition : String
  premiumPercent : ℚ
deriving DecidableEq, Repr

structure CalculatorSettings where
  contingencyPercent : ℚ
  projectCurrency : String
deriving DecidableEq, Repr

structure AggregatorSettings where
  discountRate : ℚ
deriving DecidableEq, Repr

/-- `CostModelConfig` restricted to the fields the calculation engine reads. -/
structure CostModelConfig where
  version : String
  fxRates : FXRateTable
  projectParameters : ProjectParameters
  equipmentCatalog : EquipmentCatalog
  laborCatalog : LaborCatalog
  marginRules : List MarginRule
  riskPremiums : List RiskPremiumRule
  calculatorSettings : CalculatorSettings
  aggregatorSettings : AggregatorSettings
deriving DecidableEq, Repr

-- ===========================================================================
-- RatesCalculator
-- ===========================================================================

/-- `RatesCalculator.getFXRate`. -/
def getFXRate (cfg : CostModelConfig) (fromC toC : String) : ℚ :=
  if fromC = toC then 1
  else if fromC = "USD" then jsOr (fxLookup cfg.fxRates toC) 1
  else if toC = "USD" then 1 / jsOr (fxLookup cfg.fxRates fromC) 1
  else (1 / jsOr (fxLookup cfg.fxRates fromC) 1) * jsOr (fxLookup cfg.fxRates toC) 1

structure EquipmentRates where
  itemCode : String
  costPerYear : ℚ
  costPerMonth : ℚ
  costPerDay : ℚ
  costPerHour : ℚ
  depreciationPerHour : ℚ
  maintenancePerHour : ℚ
  hoursPerDay : ℚ
  daysPerMonth : ℚ
  utilizationAssumption : ℚ
deriving DecidableEq, Repr

/-- `RatesCalculator.calculateEquipmentRates` applied to one catalog item. -/
def equipmentRateOf (cfg : CostModelConfig) (item : EquipmentItem) : EquipmentRates :=
  let fxRate := getFXRate cfg item.currency cfg.calculatorSettings.projectCurrency
  let costInProjectCurrency := item.baseCost * fxRate
  let depreciableValue := costInProjectCurrency * (1 - item.salvageValue / 100)
  let annualDepreciation := depreciableValue / item.usefulLifeYears
  let hoursPerDay : ℚ := 20
  let daysPerMonth : ℚ := 25
  let daysPerYear : ℚ := 300
  let annualMaintenance := costInProjectCurrency * (5 / 100)
  let annualInsurance := costInProjectCurrency * (2 / 100)
  let totalAnnualCost := annualDepreciation + annualMaintenance + annualInsurance
  { itemCode := item.itemCode
    costPerYear := totalAnnualCost
    costPerMonth := totalAnnualCost / 12
    costPerDay := totalAnnualCost / daysPerYear
    costPerHour := totalAnnualCost / (daysPerYear * hoursPerDay)
    depreciationPerHour := annualDepreciation / (daysPerYear * hoursPerDay)
    maintenancePerHour := annualMaintenance / (daysPerYear * hoursPerDay)
    hoursPerDay := hoursPerDay
    daysPerMonth := daysPerMonth
    utilizationAssumption := cfg.projectParameters.availability.planned }

/-- `RatesCalculator.calculateEquipmentRates`. -/
def calculateEquipmentRates (cfg : CostModelConfig) : List EquipmentRates :=
  cfg.equipmentCatalog.items.map (equipmentRateOf cfg)

structure LaborRates where
  roleCode : String
  loadedHourlyRate : ℚ
  loadedDailyRate : ℚ
  loadedMonthlyRate : ℚ
  baseRate : ℚ
  benefits : ℚ
  overhead : ℚ
  effectiveHourlyRate : ℚ
deriving DecidableEq, Repr

/-- `RatesCalculator.calculateLaborRates` applied to one role. -/
def laborRateOf (cfg : CostModelConfig) (role : LaborRole) : LaborRates :=
  let hoursPerYear : ℚ := 2080
  let fxRate := getFXRate cfg role.currency cfg.calculatorSettings.projectCurrency
  let baseAnnual := role.annualRate * fxRate
  let loadedAnnual := baseAnnual * role.burdenRate
  let loadedHourly := loadedAnnual / hoursPerYear
  let effectiveHourly := loadedHourly / role.utilizationFactor
  { roleCode := role.roleCode
    loadedHourlyRate := loadedHourly
    loadedDailyRate := loadedHourly * 8
    loadedMonthlyRate := loadedAnnual / 12
    baseRate := baseAnnual / hoursPerYear
    benefits := baseAnnual * (role.burdenRate - 1) / hoursPerYear
    overhead := 0
    effectiveHourlyRate := effectiveHourly }

/-- `RatesCalculator.calculateLaborRates`. -/
def calculateLaborRates (cfg : CostModelConfig) : List LaborRates :=
  cfg.laborCatalog.roles.map (laborRateOf cfg)

-- ===========================================================================
-- Block characteristics (calculator input record)
-- ===========================================================================

structure BlockCharacteristics where
  blockId : String
  depth : ℚ
  tonnage : ℚ
  volume : ℚ
  grade : ℚ
  rockType : String
  hardness : ℚ
  abrasivity : ℚ
  strikeLength : ℚ
  width : ℚ
  height : ℚ
deriving DecidableEq, Repr

-- ===========================================================================
-- PoliciesEngine
-- ===========================================================================

/-- Digit run to a natural number. -/
def digitsVal (cs : List Char) : ℕ :=
  cs.foldl (fun n c => 10 * n + (c.toNat - '0'.toNat)) 0

/-- JavaScript `parseFloat` on decimal literals, as an exact rational;
`none` models `NaN` (no leading numeric literal).  `Infinity` literals are
outside the rational embedding and are not modelled (no configuration or
claim uses them). -/
def parseFloatQ (s : String) : Option ℚ :=
  let cs := s.data.dropWhile Char.isWhitespace
  let signAndRest : ℚ × List Char :=
    match cs with
    | '-' :: t => (-1, t)
    | '+' :: t => (1, t)
    | _ => (1, cs)
  let sign := signAndRest.1
  let cs1 := signAndRest.2
  let intPart := cs1.takeWhile Char.isDigit
  let rest := cs1.dropWhile Char.isDigit
  let fracAndRest : List Char × List Char :=
    match rest with
    | '.' :: t => (t.takeWhile Char.isDigit, t.dropWhile Char.isDigit)
    | _ => ([], rest)
  let fracPart := fracAndRest.1
  let rest2 := fracAndRest.2
  if intPart.isEmpty && fracPart.isEmpty then none
  else
    let mantissa : ℚ :=
      (digitsVal intPart : ℚ) + (digitsVal fracPart : ℚ) / 10 ^ fracPart.length
    let expo : Int :=
      match rest2 with
      | 'e' :: t | 'E' :: t =>
        let expSign : Int × List Char :=
          match t with
          | '-' :: u => (-1, u)
          | '+' :: u => (1, u)
          | _ => (1, t)
        let ds := expSign.2.takeWhile Char.isDigit
        -- a malformed exponent is not consumed by `parseFloat`
        if ds.isEmpty then 0 else expSign.1 * (digitsVal ds : ℤ)
      | _ => 0
    some (sign * mantissa * (10 : ℚ) ^ expo)

/-- JavaScript `ToNumber` on a string (the coercion applied by the relational
operators when one operand is a number): whitespace-trimmed, empty means `0`,
anything that is not entirely a numeric literal means `NaN` (`none`). -/
def jsToNumber (s : String) : Option ℚ :=
  let cs := s.data.dropWhile Char.isWhitespace |>.reverse.dropWhile Char.isWhitespace |>.reverse
  if cs.isEmpty then some 0
  else
    let signAndRest : ℚ × List Char :=
      match cs with
      | '-' :: t => (-1, t)
      | '+' :: t => (1, t)
      | _ => (1, cs)
    let sign := signAndRest.1
    let cs1 := signAndRest.2
    let intPart := cs1.takeWhile Char.isDigit
    let rest := cs1.dropWhile Char.isDigit
    let fracAndRest : List Char × List Char :=
      match rest with
      | '.' :: t => (t.takeWhile Char.isDigit, t.dropWhile Char.isDigit)
      | _ => ([], rest)
    let fracPart := fracAndRest.1
    let rest2 := fracAndRest.2
    if intPart.isEmpty && fracPart.isEmpty then none
    else
      let mantissa : ℚ :=
        (digitsVal intPart : ℚ) + (digitsVal fracPart : ℚ) / 10 ^ fracPart.length
      match rest2 with
      | [] => some (sign * mantissa)
      | 'e' :: t | 'E' :: t =>
        let expSign : Int × List Char :=
          match t with
          | '-' :: u => (-1, u)
          | '+' :: u => (1, u)
          | _ => (1, t)
        let ds := expSign.2.takeWhile Char.isDigit
        if ds.isEmpty || !(expSign.2.dropWhile Char.isDigit).isEmpty then none
        else some (sign * mantissa * (10 : ℚ) ^ (expSign.1 * (digitsVal ds : ℤ)))
      | _ => none

/-- Characters of the regex class `[><=!]`. -/
def opChar (c : Char) : Bool := c = '>' || c = '<' || c = '=' || c = '!'

/-- The match of `/([><=!]+)\s*(.+)/` against a condition string: the
operator group and the value group, or `none` when the regex does not match.
Backtracking of the greedy `[><=!]+`/`\s*` against the mandatory `(.+)` is
reproduced exactly. -/
def condSplit : List Char → Option (List Char × List Char)
  | [] => none
  | c :: cs =>
    if opChar c then
      let run := (c :: cs).takeWhile opChar
      let rest := (c :: cs).dropWhile opChar
      match rest with
      | [] =>
        -- the operator run ends the string: `(.+)` forces the run to give
        -- back its last character (impossible for a single-character run)
        if run.length > 1 then some (run.dropLast, [run.getLastD ' '])
        else none
      | _ :: _ =>
        let t := rest.dropWhile Char.isWhitespace
        -- if the remainder is all whitespace, `\s*` gives back one character
        if t.isEmpty then some (run, [rest.getLastD ' ']) else some (run, t)
    else condSplit cs

/-- `PoliciesEngine.evaluateCondition`. -/
def evaluateCondition (attrName condition : String) (block : BlockCharacteristics) : Bool :=
  match condSplit condition.data with
  | none => false
  | some (opRun, valueChars) =>
    let operatorStr := String.mk opRun
    let valueStr := String.mk valueChars
    -- `const threshold = parseFloat(valueStr) || valueStr.trim()`
    let threshold : Sum ℚ String :=
      match parseFloatQ valueStr with
      | some q => if q = 0 then Sum.inr (strTrim valueStr) else Sum.inl q
      | none => Sum.inr (strTrim valueStr)
    let blockValue : Option ℚ :=
      if attrName = "depth" then some block.depth
      else if attrName = "rock_hardness" then some block.hardness
      else if attrName = "grade" then some block.grade
      else if attrName = "abrasivity" then some block.abrasivity
      else none
    match blockValue with
    | none => false
    | some bv =>
      -- relational operators coerce a string threshold with `ToNumber`;
      -- a `NaN` comparison is false
      let coerced : Option ℚ :=
        match threshold with
        | Sum.inl q => some q
        | Sum.inr s => jsToNumber s
      if operatorStr = ">" then
        match coerced with | some t => decide (bv > t) | none => false
      else if operatorStr = ">=" then
        match coerced with | some t => decide (bv ≥ t) | none => false
      else if operatorStr = "<" then
        match coerced with | some t => decide (bv < t) | none => false
      else if operatorStr = "<=" then
        match coerced with | some t => decide (bv ≤ t) | none => false
      else if operatorStr = "=" || operatorStr = "==" then
        -- strict equality: a number never strictly equals a string
        match threshold with | Sum.inl q => decide (bv = q) | Sum.inr _ => false
      else if operatorStr = "!=" then
        match threshold with | Sum.inl q => decide (bv ≠ q) | Sum.inr _ => true
      else false

/-- `new Date('2099-12-31')` in epoch milliseconds (the default upper bound
of a margin rule without `validTo`). -/
def defaultValidTo : Int := 4102358400000

/-- `PoliciesEngine.getMargin`.  The evaluation date (defaulted to
`new Date()` at the call site in the source) is an explicit argument. -/
def getMargin (cfg : CostModelConfig) (costCategory : String) (date : Int) : ℚ :=
  match cfg.marginRules.find? (fun r =>
      decide (r.costCategory = costCategory) &&
      decide (r.validFrom ≤ date) &&
      decide (date ≤ r.validTo.getD defaultValidTo)) with
  | some r => jsOrNum r.marginPercent 0
  | none => 0

structure AppliedPremium where
  risk : String
  amount : ℚ
deriving DecidableEq, Repr

/-- `PoliciesEngine.calculateRiskPremium`: total premium and the applied
premium list, accumulated in rule order. -/
def calculateRiskPremium (cfg : CostModelConfig) (block : BlockCharacteristics) :
    ℚ × List AppliedPremium :=
  cfg.riskPremiums.foldl
    (fun acc premium =>
      if evaluateCondition premium.attr premium.condition block then
        (acc.1 + premium.premiumPercent, acc.2 ++ [⟨premium.attr, premium.premiumPercent⟩])
      else acc)
    (0, [])

-- ===========================================================================
-- BlockCostCalculator
-- ===========================================================================

/-- The penetration-rate resolution shared by `calculateLaborCost` and
`estimateMiningHours`:
`penetrationRate.find(r => r.rockType.toLowerCase() === block.rockType.toLowerCase())
 || penetrationRate[1]`.
`none` models the JavaScript `undefined` whose field access then throws. -/
def findPenRate (cfg : CostModelConfig) (block : BlockCharacteristics) : Option PenRateEntry :=
  match cfg.projectParameters.penetrationRate.find?
      (fun r => strToLower r.rockType = strToLower block.rockType) with
  | some r => some r
  | none => cfg.projectParameters.penetrationRate.get? 1

/-- The overall-equipment-effectiveness product
`planned * mechanical * operational`. -/
def oeeOf (cfg : CostModelConfig) : ℚ :=
  cfg.projectParameters.availability.planned *
    cfg.projectParameters.availability.mechanical *
    cfg.projectParameters.availability.operational

/-- `BlockCostCalculator.estimateMiningHours`. -/
def estimateMiningHours (cfg : CostModelConfig) (block : BlockCharacteristics) : Option ℚ :=
  (findPenRate cfg block).map (fun penRate =>
    let metersToMine := block.strikeLength * block.width
    let baseHours := metersToMine / penRate.metersPerHour
    baseHours / oeeOf cfg)

/-- `BlockCostCalculator.calculateLaborCost`. -/
def calculateLaborCost (cfg : CostModelConfig) (block : BlockCharacteristics) : Option ℚ :=
  (findPenRate cfg block).map (fun penRate =>
    let metersToMine := block.strikeLength * block.width
    let miningHours := metersToMine / penRate.metersPerHour
    let effectiveHours := miningHours / oeeOf cfg
    (calculateLaborRates cfg).foldl
      (fun totalLabor rate =>
        let weight : ℚ := if strIncludes rate.roleCode "direct" then 1 else 3 / 10
        totalLabor + rate.effectiveHourlyRate * effectiveHours * weight)
      0)

/-- `BlockCostCalculator.calculateEquipmentCost`. -/
def calculateEquipmentCost (cfg : CostModelConfig) (block : BlockCharacteristics) : Option ℚ :=
  (estimateMiningHours cfg block).map (fun miningHours =>
    (calculateEquipmentRates cfg).foldl
      (fun totalEquipment rate => totalEquipment + rate.costPerHour * miningHours) 0)

/-- `BlockCostCalculator.calculateConsumablesCost`. -/
def calculateConsumablesCost (block : BlockCharacteristics) : ℚ :=
  let baseRatePerTonne : ℚ := 5 / 2
  let depthMultiplier : ℚ :=
    if block.depth > 1000 then 3 / 2 else if block.depth > 500 then 5 / 4 else 1
  let hardnessMultiplier : ℚ :=
    if block.hardness > 8 then 8 / 5 else if block.hardness > 6 then 13 / 10 else 1
  baseRatePerTonne * block.tonnage * depthMultiplier * hardnessMultiplier

/-- `BlockCostCalculator.calculateEnergyCost`. -/
def calculateEnergyCost (cfg : CostModelConfig) (block : BlockCharacteristics) : Option ℚ :=
  (estimateMiningHours cfg block).map (fun miningHours =>
    let totalPowerKW :=
      cfg.equipmentCatalog.items.foldl (fun acc item => acc + jsOr item.powerKW 0) 0
    let kWhConsumed := totalPowerKW * miningHours
    let electricityRate : ℚ := 12 / 100
    kWhConsumed * electricityRate)

/-- `BlockCostCalculator.calculateMaintenanceCost`. -/
def calculateMaintenanceCost (cfg : CostModelConfig) (block : BlockCharacteristics) : Option ℚ :=
  (estimateMiningHours cfg block).map (fun miningHours =>
    (calculateEquipmentRates cfg).foldl
      (fun totalMaintenance rate => totalMaintenance + rate.maintenancePerHour * miningHours) 0)

/-- `BlockCostCalculator.calculateOverhead`: 15% of direct (labor+equipment) cost. -/
def calculateOverhead (cfg : CostModelConfig) (block : BlockCharacteristics) : Option ℚ := do
  let labor ← calculateLaborCost cfg block
  let equipment ← calculateEquipmentCost cfg block
  pure ((labor + equipment) * (15 / 100))

structure CapexComponent where
  equipmentDepreciation : ℚ
  infrastructureAllocation : ℚ
  total : ℚ
deriving DecidableEq, Repr

/-- `BlockCostCalculator.calculateCAPEXAllocation`. -/
def calculateCAPEXAllocation (cfg : CostModelConfig) (block : BlockCharacteristics) :
    CapexComponent :=
  let totalEquipmentCapital :=
    cfg.equipmentCatalog.items.foldl (fun sum item => sum + item.baseCost) 0
  let totalProductionEstimate := block.tonnage * 1000
  let depreciationPerTonne := totalEquipmentCapital / totalProductionEstimate
  let equipmentDepreciation := depreciationPerTonne * block.tonnage
  let infrastructureAllocation := block.tonnage * 1
  { equipmentDepreciation := equipmentDepreciation
    infrastructureAllocation := infrastructureAllocation
    total := equipmentDepreciation + infrastructureAllocation }

structure BreakdownEntry where
  category : String
  cost : ℚ
  percentOfTotal : ℚ
deriving DecidableEq, Repr

structure OpexComponent where
  labor : ℚ
  consumables : ℚ
  energy : ℚ
  maintenance : ℚ
  overhead : ℚ
  total : ℚ
deriving DecidableEq, Repr

structure AppliedMargin where
  rule : String
  amount : ℚ
deriving DecidableEq, Repr

structure AppliedDiscount where
  tier : String
  amount : ℚ
deriving DecidableEq, Repr

/-- `BlockCostResult` (the wall-clock `calculatedAt` timestamp is omitted
from the embedding). -/
structure BlockCostResult where
  blockId : String
  configVersion : String
  costPerTonne : ℚ
  costPerMeter : ℚ
  breakdown : List BreakdownEntry
  capexComponent : CapexComponent
  opexComponent : OpexComponent
  appliedMargins : List AppliedMargin
  appliedPremiums : List AppliedPremium
  appliedDiscounts : List AppliedDiscount
  subtotal : ℚ
  contingency : ℚ
  grandTotal : ℚ
deriving DecidableEq, Repr

/-- `BlockCostCalculator.calculateBlockCost`.  The `now` argument is the
wall-clock date passed implicitly to the two `getMargin` calls (which default
their date to `new Date()`).  The result is `none` exactly when the
penetration-rate fallback is undefined and the source throws. -/
def calculateBlockCost (cfg : CostModelConfig) (block : BlockCharacteristics) (now : Int) :
    Option BlockCostResult := do
  let laborCost ← calculateLaborCost cfg block
  let equipmentCost ← calculateEquipmentCost cfg block
  let consumablesCost := calculateConsumablesCost block
  let energyCost ← calculateEnergyCost cfg block
  let maintenanceCost ← calculateMaintenanceCost cfg block
  let overheadCost ← calculateOverhead cfg block
  let capexAllocation := calculateCAPEXAllocation cfg block
  let riskResult := calculateRiskPremium cfg block
  let riskPremium := riskResult.1
  let appliedPremiums := riskResult.2
  let laborMargin := getMargin cfg "labor" now
  let equipmentMargin := getMargin cfg "equipment" now
  let appliedMargins : List AppliedMargin :=
    (if laborMargin ≠ 0 then [⟨"labor", laborMargin⟩] else []) ++
      (if equipmentMargin ≠ 0 then [⟨"equipment", equipmentMargin⟩] else [])
  let appliedDiscounts : List AppliedDiscount := []
  let opexTotal := laborCost + consumablesCost + energyCost + maintenanceCost + overheadCost
  let capexTotal := capexAllocation.equipmentDepreciation + capexAllocation.infrastructureAllocation
  let subtotal := opexTotal + capexTotal
  let riskAdjustment := subtotal * (riskPremium / 100)
  let marginAdjustment := appliedMargins.foldl (fun sum m => sum + m.amount / 100 * subtotal) 0
  let discountAdjustment := appliedDiscounts.foldl (fun sum d => sum - d.amount / 100 * subtotal) 0
  let contingencyRate := cfg.calculatorSettings.contingencyPercent / 100
  let contingency := subtotal * contingencyRate
  let grandTotal :=
    subtotal + riskAdjustment + marginAdjustment + discountAdjustment + contingency
  let costPerTonne := grandTotal / block.tonnage
  let costPerMeter := grandTotal / jsOrNum block.strikeLength 1
  let breakdown : List BreakdownEntry :=
    [⟨"Labor", laborCost, laborCost / grandTotal * 100⟩,
     ⟨"Consumables", consumablesCost, consumablesCost / grandTotal * 100⟩,
     ⟨"Energy", energyCost, energyCost / grandTotal * 100⟩,
     ⟨"Maintenance", maintenanceCost, maintenanceCost / grandTotal * 100⟩,
     ⟨"Overhead", overheadCost, overheadCost / grandTotal * 100⟩,
     ⟨"Equipment CAPEX", capexAllocation.equipmentDepreciation,
       capexAllocation.equipmentDepreciation / grandTotal * 100⟩,
     ⟨"Infrastructure", capexAllocation.infrastructureAllocation,
       capexAllocation.infrastructureAllocation / grandTotal * 100⟩]
  pure
    { blockId := block.blockId
      configVersion := cfg.version
      costPerTonne := costPerTonne
      costPerMeter := costPerMeter
      breakdown := breakdown
      capexComponent := capexAllocation
      opexComponent :=
        { labor := laborCost
          consumables := consumablesCost
          energy := energyCost
          maintenance := maintenanceCost
          overhead := overheadCost
          total := opexTotal }
      appliedMargins := appliedMargins
      appliedPremiums := appliedPremiums
      appliedDiscounts := appliedDiscounts
      subtotal := subtotal
      contingency := contingency
      grandTotal := grandTotal }

-- ===========================================================================
-- ProjectAggregator
-- ===========================================================================

structure BlockSchedule where
  blockId : String
  period : String
  sequence : ℕ
deriving DecidableEq, Repr

structure CapexSplit where
  equipment : ℚ
  infrastructure : ℚ
  development : ℚ
  workingCapital : ℚ
  total : ℚ
deriving DecidableEq, Repr

structure OpexSplit where
  mining : ℚ
  processing : ℚ
  maintenance : ℚ
  labor : ℚ
  energy : ℚ
  gAndA : ℚ
  other : ℚ
  total : ℚ
deriving DecidableEq, Repr

structure ProjectCashflow where
  period : String
  year : ℕ
  month : ℕ
  capex : CapexSplit
  opex : OpexSplit
  netCashflow : ℚ
  cumulativeCashflow : ℚ
deriving DecidableEq, Repr

/-- The template literal `` `${year}-${String(month).padStart(2, '0')}` ``. -/
def periodString (year month : ℕ) : String :=
  let m := toString month
  toString year ++ "-" ++ (if m.length < 2 then "0" ++ m else m)

/-- The `(year, month)` pairs the cash-flow loop visits: every month of
every year from `startYear` through `startYear + lifeOfMine.years`
inclusive. -/
def periodsList (cfg : CostModelConfig) : List (ℕ × ℕ) :=
  ((List.range (cfg.projectParameters.lifeOfMine.years + 1)).map
      (fun k => cfg.projectParameters.lifeOfMine.startYear + k)).flatMap
    (fun year => (List.range 12).map (fun j => (year, j + 1)))

/-- The `blockCosts` map built at the top of `generateCashflow`; `none` when
some block's cost calculation throws. -/
def buildBlockCosts (cfg : CostModelConfig) (blocks : List BlockCharacteristics) (now : Int) :
    Option (List (String × BlockCostResult)) :=
  blocks.mapM (fun b => (calculateBlockCost cfg b now).map (fun r => (b.blockId, r)))

/-- `Map.prototype.get` on the association list built by successive
`Map.prototype.set` calls: the last binding of a key wins. -/
def mapGet (l : List (String × BlockCostResult)) (k : String) : Option BlockCostResult :=
  (l.reverse.find? (fun p => p.1 = k)).map (fun p => p.2)

/-- The body of the period loop of `ProjectAggregator.generateCashflow`
(before the cumulative pass): one `ProjectCashflow` record for one
`(year, month)` pair. -/
def periodRecord (blocks : List BlockCharacteristics) (schedule : List BlockSchedule)
    (blockCosts : List (String × BlockCostResult)) (ym : ℕ × ℕ) : ProjectCashflow :=
  let period := periodString ym.1 ym.2
  let scheduledBlocks := schedule.filter (fun s => s.period = period)
  -- the loop also accumulates `periodTonnage`, which is never read afterwards
  let sums :=
    scheduledBlocks.foldl
      (fun acc scheduled =>
        match mapGet blockCosts scheduled.blockId,
            blocks.find? (fun b => b.blockId = scheduled.blockId) with
        | some cost, some _block =>
          (acc.1 + cost.capexComponent.total, acc.2 + cost.opexComponent.total)
        | _, _ => acc)
      ((0 : ℚ), (0 : ℚ))
  let periodCapex := sums.1
  let periodOpex := sums.2
  { period := period
    year := ym.1
    month := ym.2
    capex :=
      { equipment := periodCapex * (7 / 10)
        infrastructure := periodCapex * (2 / 10)
        development := periodCapex * (1 / 10)
        workingCapital := 0
        total := periodCapex }
    opex :=
      { mining := periodOpex * (4 / 10)
        processing := periodOpex * (2 / 10)
        maintenance := periodOpex * (15 / 100)
        labor := periodOpex * (15 / 100)
        energy := periodOpex * (5 / 100)
        gAndA := periodOpex * (5 / 100)
        other := 0
        total := periodOpex }
    netCashflow := -(periodCapex + periodOpex)
    cumulativeCashflow := 0 }

/-- The second pass of `generateCashflow`: the running cumulative sum
written into each record. -/
def accumulate : ℚ → List ProjectCashflow → List ProjectCashflow
  | _, [] => []
  | acc, cf :: rest =>
    let cumulative := acc + cf.netCashflow
    { cf with cumulativeCashflow := cumulative } :: accumulate cumulative rest

/-- `ProjectAggregator.generateCashflow`. -/
def generateCashflow (cfg : CostModelConfig) (blocks : List BlockCharacteristics)
    (schedule : List BlockSchedule) (now : Int) : Option (List ProjectCashflow) :=
  (buildBlockCosts cfg blocks now).map (fun blockCosts =>
    accumulate 0 ((periodsList cfg).map (periodRecord blocks schedule blockCosts)))

-- ===========================================================================
-- IRR and project summary (real-valued: `Math.pow` with fractional exponents)
-- ===========================================================================

/-- The shared Newton-Raphson tolerance `0.0001`. -/
noncomputable def tolIRR : ℝ := 1 / 10000

/-- The NPV accumulated by the inner loop of `calculateIRR`:
`npv += cashflows[t] / (1+rate)^(t/12)`. -/
noncomputable def npvAt (cashflows : List ℝ) (rate : ℝ) : ℝ :=
  (cashflows.enum.map (fun tc => tc.2 / (1 + rate) ^ ((tc.1 : ℝ) / 12))).sum

/-- The NPV derivative accumulated by the inner loop of `calculateIRR`:
`derivNPV -= (t/12) * cashflows[t] / (factor * (1+rate))`. -/
noncomputable def derivAt (cashflows : List ℝ) (rate : ℝ) : ℝ :=
  (cashflows.enum.map
      (fun tc => -((tc.1 : ℝ) / 12 * tc.2 / ((1 + rate) ^ ((tc.1 : ℝ) / 12) * (1 + rate))))).sum

/-- The Newton-Raphson iteration of `ProjectAggregator.calculateIRR`, with
the remaining iteration count as fuel (`maxIterations = 100`). -/
noncomputable def irrGo (cashflows : List ℝ) : ℕ → ℝ → Option ℝ
  | 0, _ => none
  | n + 1, rate =>
    let npv := npvAt cashflows rate
    let derivNPV := derivAt cashflows rate
    if |derivNPV| < tolIRR then none
    else
      let newRate := rate - npv / derivNPV
      if |newRate - rate| < tolIRR then some newRate
      else irrGo cashflows n newRate

/-- `ProjectAggregator.calculateIRR` (the default initial guess `0.1` is
never overridden by a caller); `none` is the source's `null`. -/
noncomputable def calculateIRR (cashflows : List ℝ) : Option ℝ :=
  irrGo cashflows 100 (1 / 10)

/-- JavaScript `a || b` for a real-valued `a`. -/
noncomputable def jsOrR (a : Option ℝ) (b : ℝ) : ℝ :=
  match a with
  | none => b
  | some x => if x = 0 then b else x

/-- The NPV loop of `generateSummary`:
`npv += netCashflow[i] / (1+discountRate)^(i/12)`, index threaded. -/
noncomputable def npvFrom (discountRate : ℝ) : ℕ → List ℝ → ℝ
  | _, [] => 0
  | i, c :: rest => c / (1 + discountRate) ^ ((i : ℝ) / 12) + npvFrom discountRate (i + 1) rest

structure ProjectSummary where
  projectStart : String
  projectEnd : String
  totalMonths : ℕ
  totalCAPEX : ℚ
  totalOPEX : ℚ
  totalCashflow : ℚ
  npv : ℝ
  irr : ℝ
  paybackMonths : ℕ
  costPerTonne : ℚ
  costPerMeter : ℚ
  opexIntensity : ℚ
  fixedCosts : ℚ
  variableCosts : ℚ
  fixedCostRatio : ℚ

/-- `ProjectAggregator.generateSummary`. -/
noncomputable def generateSummary (cfg : CostModelConfig) (cashflows : List ProjectCashflow) :
    ProjectSummary :=
  let totalCAPEX := cashflows.foldl (fun sum cf => sum + cf.capex.total) 0
  let totalOPEX := cashflows.foldl (fun sum cf => sum + cf.opex.total) 0
  -- `cashflows[cashflows.length - 1]?.cumulativeCashflow || 0`
  let totalCashflow := jsOr (cashflows.getLast?.map (fun cf => cf.cumulativeCashflow)) 0
  let discountRate : ℝ := (cfg.aggregatorSettings.discountRate : ℝ)
  let npv := npvFrom discountRate 0 (cashflows.map (fun cf => (cf.netCashflow : ℝ)))
  let irr := calculateIRR (cashflows.map (fun cf => (cf.netCashflow : ℝ)))
  let paybackMonths :=
    match cashflows.findIdx? (fun cf => decide (0 ≤ cf.cumulativeCashflow)) with
    | some i => i
    | none => cashflows.length
  let totalTonnage : ℚ := 1000000
  let totalMeters : ℚ := 5000
  let startYear := cfg.projectParameters.lifeOfMine.startYear
  { projectStart := toString startYear ++ "-01"
    projectEnd := toString (startYear + cfg.projectParameters.lifeOfMine.years) ++ "-12"
    totalMonths := cashflows.length
    totalCAPEX := totalCAPEX
    totalOPEX := totalOPEX
    totalCashflow := totalCashflow
    npv := npv
    irr := jsOrR irr 0
    paybackMonths := paybackMonths
    costPerTonne := (totalCAPEX + totalOPEX) / totalTonnage
    costPerMeter := (totalCAPEX + totalOPEX) / totalMeters
    opexIntensity := 0
    fixedCosts := totalCAPEX
    variableCosts := totalOPEX
    fixedCostRatio := totalCAPEX / (totalCAPEX + totalOPEX) }

-- ===========================================================================
-- CostModelEngine facade
-- ===========================================================================

/-- `CostModelEngine.applyVariation`.  The source parameter `variable` is a
reserved word in Lean and is rendered here as `variableName`. -/
def applyVariation (cfg : CostModelConfig) (variableName : String) (variation : ℚ) :
    CostModelConfig :=
  let multiplier := 1 + variation / 100
  if variableName = "discount_rate" then
    { cfg with
        aggregatorSettings :=
          { cfg.aggregatorSettings with
              discountRate := cfg.aggregatorSettings.discountRate * multiplier } }
  else if variableName = "equipment_cost" then
    { cfg with
        equipmentCatalog :=
          { cfg.equipmentCatalog with
              items := cfg.equipmentCatalog.items.map (fun item =>
                { item with baseCost := item.baseCost * multiplier }) } }
  else if variableName = "labor_cost" then
    { cfg with
        laborCatalog :=
          { cfg.laborCatalog with
              roles := cfg.laborCatalog.roles.map (fun role =>
                { role with annualRate := role.annualRate * multiplier }) } }
  else cfg

/-- `CostModelEngine.runFullProjection`; `none` when block costing throws. -/
noncomputable def runFullProjection (cfg : CostModelConfig) (blocks : List BlockCharacteristics)
    (schedule : List BlockSchedule) (now : Int) :
    Option (List BlockCostResult × List ProjectCashflow × ProjectSummary) := do
  let blockCosts ← blocks.mapM (fun b => calculateBlockCost cfg b now)
  let cashflows ← generateCashflow cfg blocks schedule now
  pure (blockCosts, cashflows, generateSummary cfg cashflows)

/-- `CostModelEngine.runSensitivity`: per variation, the varied
configuration's projection summary `(variation, npv, irr)`. -/
noncomputable def runSensitivity (cfg : CostModelConfig) (blocks : List BlockCharacteristics)
    (schedule : List BlockSchedule) (variableName : String) (variations : List ℚ) (now : Int) :
    Option (List (ℚ × ℝ × ℝ)) :=
  variations.mapM (fun variation =>
    (runFullProjection (applyVariation cfg variableName variation) blocks schedule now).map
      (fun proj => (variation, proj.2.2.npv, proj.2.2.irr)))

/-- The project NPV of a full projection (the `summary.npv` consumed by the
sensitivity comparison of C9). -/
noncomputable def projectNPV (cfg : CostModelConfig) (blocks : List BlockCharacteristics)
    (schedule : List BlockSchedule) (now : Int) : Option ℝ :=
  (generateCashflow cfg blocks schedule now).map (fun cashflows =>
    (generateSummary cfg cashflows).npv)

-- ===========================================================================
-- Spec-side reference definition (C4) and derived characterizations
-- ===========================================================================

/-- Modelled from the spec: §4.3 "Margin lookup" describes the validity
window as half-open `[validFrom, validTo)`; this reference version of the
margin lookup uses a strict upper bound, to be compared with the code's
`getMargin`. -/
def getMarginHalfOpen (cfg : CostModelConfig) (costCategory : String) (date : Int) : ℚ :=
  match cfg.marginRules.find? (fun r =>
      decide (r.costCategory = costCategory) &&
      decide (r.validFrom ≤ date) &&
      decide (date < r.validTo.getD defaultValidTo)) with
  | some r => jsOrNum r.marginPercent 0
  | none => 0

/-- First-match margin lookup with a closed window `[validFrom, validTo]`,
written as a direct recursion; the amended C4 shows the code's `getMargin`
computes exactly this. -/
def marginFirstClosed : List MarginRule → String → Int → ℚ
  | [], _, _ => 0
  | r :: rs, cat, date =>
    if r.costCategory = cat ∧ r.validFrom ≤ date ∧ date ≤ r.validTo.getD defaultValidTo then
      r.marginPercent
    else marginFirstClosed rs cat date

/-- A default `ProjectCashflow` record, used only as the out-of-range value
of `List.getD` in index-wise statements. -/
def defaultCashflow : ProjectCashflow :=
  { period := ""
    year := 0
    month := 0
    capex := ⟨0, 0, 0, 0, 0⟩
    opex := ⟨0, 0, 0, 0, 0, 0, 0, 0⟩
    netCashflow := 0
    cumulativeCashflow := 0 }

-- ===========================================================================
-- Concrete instances used by the closed theorems
-- ===========================================================================

/-- A small but fully-populated configuration (default FX table, the default
three-entry penetration-rate list, 10% contingency, 8% discount rate, no
policies, empty catalogs). -/
def baseCfg : CostModelConfig :=
  { version := "3.0.0"
    fxRates := { CAD := 136 / 100, EUR := 92 / 100, AUD := 153 / 100, GBP := 79 / 100 }
    projectParameters :=
      { lifeOfMine := { years := 0, startYear := 2024 }
        penetrationRate := [⟨5 / 2, "soft"⟩, ⟨3 / 2, "medium"⟩, ⟨4 / 5, "hard"⟩]
        availability := { planned := 92 / 100, mechanical := 95 / 100, operational := 97 / 100 } }
    equipmentCatalog := { items := [] }
    laborCatalog := { roles := [] }
    marginRules := []
    riskPremiums := []
    calculatorSettings := { contingencyPercent := 10, projectCurrency := "USD" }
    aggregatorSettings := { discountRate := 8 / 100 } }

/-- C1 failing input: the degenerate block (zero tonnage, zero strike length
and width) — it is even the UI's initial `blockInput`. -/
def c1block : BlockCharacteristics :=
  { blockId := "B0", depth := 0, tonnage := 0, volume := 0, grade := 0,
    rockType := "soft", hardness := 0, abrasivity := 0,
    strikeLength := 0, width := 0, height := 0 }

/-- C4 counterexample configuration: one margin rule valid on `[0, 100]`. -/
def c4cfg : CostModelConfig :=
  { baseCfg with marginRules := [⟨"labor", 5, 0, some 100⟩] }

/-- C6 concrete configuration: exactly the spec's two stacking premiums,
5% on depth > 500 and 3% on rock hardness > 8. -/
def c6cfg : CostModelConfig :=
  { baseCfg with riskPremiums := [⟨"depth", "> 500", 5⟩, ⟨"rock_hardness", "> 8", 3⟩] }

/-- A block matching both premiums of `c6cfg`. -/
def c6block : BlockCharacteristics :=
  { blockId := "B6", depth := 600, tonnage := 2, volume := 1, grade := 5,
    rockType := "soft", hardness := 9, abrasivity := 1,
    strikeLength := 3, width := 1, height := 1 }


/-- C10 configuration with a single penetration-rate entry (no index-1
fallback available). -/
def c10cfgShort : CostModelConfig :=
  { baseCfg with
      projectParameters :=
        { baseCfg.projectParameters with penetrationRate := [⟨5 / 2, "soft"⟩] } }

/-- A block whose rock type matches no configured penetration-rate entry. -/
def c10block : BlockCharacteristics :=
  { blockId := "B10", depth := 0, tonnage := 1, volume := 0, grade := 0,
    rockType := "granite", hardness := 0, abrasivity := 0,
    strikeLength := 1, width := 1, height := 1 }


/-- A zero `BlockCostResult`, used only as the out-of-range value of
`Option.getD` in closed statements. -/
def defaultBlockCostResult : BlockCostResult :=
  { blockId := "", configVersion := "", costPerTonne := 0, costPerMeter := 0,
    breakdown := [], capexComponent := ⟨0, 0, 0⟩,
    opexComponent := ⟨0, 0, 0, 0, 0, 0⟩, appliedMargins := [], appliedPremiums := [],
    appliedDiscounts := [], subtotal := 0, contingency := 0, grandTotal := 0 }

/-- C5 concrete configuration: both margin categories populated, one risk
premium, one equipment item and one labor role. -/
def c5cfg : CostModelConfig :=
  { baseCfg with
      marginRules := [⟨"labor", 5, 0, none⟩, ⟨"equipment", 4, 0, none⟩],
      riskPremiums := [⟨"depth", "> 500", 5⟩],
      equipmentCatalog :=
        { items := [{ itemCode := "ROBOT-1", baseCost := 1000000, currency := "USD",
                      powerKW := some 75, usefulLifeYears := 10, salvageValue := 10 }] },
      laborCatalog :=
        { roles := [{ roleCode := "direct-op", annualRate := 95000, currency := "USD",
                      utilizationFactor := 17 / 20, burdenRate := 27 / 20 }] } }

/-- C5 concrete block. -/
def c5block : BlockCharacteristics :=
  { blockId := "B5", depth := 600, tonnage := 2, volume := 1, grade := 5,
    rockType := "soft", hardness := 5, abrasivity := 1,
    strikeLength := 3, width := 1, height := 1 }


/-- C2 concrete cash-flow record: one period with net cash flow 100 (a
series on which Newton-Raphson hits a zero derivative immediately). -/
def c2cashflow : ProjectCashflow := { defaultCashflow with netCashflow := 100 }


/-- The +10% scaling of one equipment item performed by the
`equipment_cost` branch of `applyVariation`. -/
def itemScale (item : EquipmentItem) : EquipmentItem :=
  { item with baseCost := item.baseCost * (11 / 10) }

/-- The `totalEquipmentCapital` accumulation of `calculateCAPEXAllocation`
(the raw base costs, not FX-adjusted). -/
def totalEquipmentCapital (cfg : CostModelConfig) : ℚ :=
  cfg.equipmentCatalog.items.foldl (fun sum item => sum + item.baseCost) 0

/-- The configuration produced by `applyVariation _ "equipment_cost" 10`:
every catalog item's base cost scaled by 1.10, everything else unchanged. -/
def variedCfg (cfg : CostModelConfig) : CostModelConfig :=
  { cfg with equipmentCatalog := { items := cfg.equipmentCatalog.items.map itemScale } }

/-- All four configured FX rates are nonnegative. -/
def FxNonneg (cfg : CostModelConfig) : Prop :=
  0 ≤ cfg.fxRates.CAD ∧ 0 ≤ cfg.fxRates.EUR ∧ 0 ≤ cfg.fxRates.AUD ∧ 0 ≤ cfg.fxRates.GBP

/-- Catalog well-formedness: positive base costs and useful lives, salvage
percentages at most 100. -/
def ItemsWF (cfg : CostModelConfig) : Prop :=
  ∀ item ∈ cfg.equipmentCatalog.items,
    0 < item.baseCost ∧ 0 < item.usefulLifeYears ∧ item.salvageValue ≤ 100

/-- One step of the per-period cost fold of `generateCashflow`, for a block
cost map built from `blocks` by a cost function `g`. -/
def periodStep (blocks : List BlockCharacteristics)
    (g : BlockCharacteristics → BlockCostResult) (acc : ℚ × ℚ)
    (scheduled : BlockSchedule) : ℚ × ℚ :=
  match mapGet (blocks.map (fun b => (b.blockId, g b))) scheduled.blockId,
      blocks.find? (fun b => b.blockId = scheduled.blockId) with
  | some cost, some _block =>
    (acc.1 + cost.capexComponent.total, acc.2 + cost.opexComponent.total)
  | _, _ => acc

/-- C9 witness configuration: one million-dollar equipment item over the
default base configuration. -/
def c9cfg : CostModelConfig :=
  { baseCfg with
      equipmentCatalog :=
        { items := [{ itemCode := "ROBOT-1", baseCost := 1000000, currency := "USD",
                      powerKW := some 75, usefulLifeYears := 10, salvageValue := 10 }] } }

/-- C9 witness block: positive tonnage and mining geometry. -/
def c9block : BlockCharacteristics :=
  { blockId := "B9", depth := 100, tonnage := 2, volume := 1, grade := 5,
    rockType := "soft", hardness := 5, abrasivity := 1,
    strikeLength := 3, width := 1, height := 1 }

/-- C9 witness schedule: the block mined in the first generated period. -/
def c9schedule : List BlockSchedule := [⟨"B9", "2024-01", 1⟩]

-- ===== THEOREMS =====

/-- The running total of `calculateRiskPremium` is the initial total plus
the sum of the premium percentages of the matching rules. -/
lemma riskPremium_foldl_fst (block : BlockCharacteristics)
    (rules : List RiskPremiumRule) :
    ∀ init : ℚ × List AppliedPremium,
      (rules.foldl
        (fun acc premium =>
          if evaluateCondition premium.attr premium.condition block then
            (acc.1 + premium.premiumPercent, acc.2 ++ [⟨premium.attr, premium.premiumPercent⟩])
          else acc) init).1
      = init.1 +
          ((rules.filter (fun p => evaluateCondition p.attr p.condition block)).map
            (fun p => p.premiumPercent)).sum := by
  induction rules with
  | nil => intro init; simp
  | cons r rs ih =>
    intro init
    by_cases h : evaluateCondition r.attr r.condition block = true
    · simp only [List.foldl_cons, List.filter_cons, h, if_true]
      rw [ih]
      simp [add_assoc]
    · simp only [List.foldl_cons, List.filter_cons, h, if_false]
      rw [ih]
      simp [h]

/-- C6: for every rule set and block, `calculateRiskPremium` returns the
arithmetic sum of the `premiumPercent` of exactly those rules whose
condition evaluates true against the block — additive stacking, never
compounding, no mutual exclusion; in particular the two matching rules of
5% and 3% in `c6cfg` yield a combined premium of 8%. -/
theorem C6_risk_premiums_stack_additively :
    (∀ (cfg : CostModelConfig) (block : BlockCharacteristics),
      (calculateRiskPremium cfg block).1 =
        ((cfg.riskPremiums.filter
            (fun p => evaluateCondition p.attr p.condition block)).map
          (fun p => p.premiumPercent)).sum) ∧
    (calculateRiskPremium c6cfg c6block).1 = 5 + 3 := by
  constructor
  · intro cfg block
    unfold calculateRiskPremium
    rw [riskPremium_foldl_fst]
    simp
  · simp +decide [calculateRiskPremium, c6cfg, evaluateCondition, condSplit, opChar,
      parseFloatQ, digitsVal, List.dropWhile, List.takeWhile, c6block, baseCfg]

/-- `jsOrNum x 0` is just `x`. -/
lemma jsOrNum_zero (x : ℚ) : jsOrNum x 0 = x := by
  unfold jsOrNum
  split <;> simp_all

/-- The `find?`-based margin lookup equals the first-match recursion with a
closed validity window. -/
lemma getMargin_go_eq_firstClosed (rules : List MarginRule) (cat : String) (date : Int) :
    (match rules.find? (fun r =>
        decide (r.costCategory = cat) && decide (r.validFrom ≤ date) &&
        decide (date ≤ r.validTo.getD defaultValidTo)) with
      | some r => jsOrNum r.marginPercent 0
      | none => 0) = marginFirstClosed rules cat date := by
  induction rules with
  | nil => simp [marginFirstClosed]
  | cons r rs ih =>
    by_cases hp : (r.costCategory = cat ∧ r.validFrom ≤ date ∧
        date ≤ r.validTo.getD defaultValidTo)
    · rw [List.find?_cons_of_pos]
      · simp [marginFirstClosed, hp, jsOrNum_zero]
      · simp [hp.1, hp.2.1, hp.2.2]
    · rw [List.find?_cons_of_neg]
      · rw [ih, marginFirstClosed]
        rw [if_neg hp]
      · simp only [Bool.and_eq_true, decide_eq_true_eq]
        intro h
        exact hp ⟨h.1.1, h.1.2, h.2⟩

/-- C4 (amended): `getMargin` returns the `marginPercent` of the first rule
whose `costCategory` matches and whose validity window contains the date as
a CLOSED interval `[validFrom, validTo]` — a date exactly equal to
`validTo` still matches — and returns 0 when no rule matches. -/
theorem C4_margin_window_amended :
    ∀ (cfg : CostModelConfig) (cat : String) (date : Int),
      getMargin cfg cat date = marginFirstClosed cfg.marginRules cat date := by
  intro cfg cat date
  unfold getMargin
  exact getMargin_go_eq_firstClosed cfg.marginRules cat date

/-- C4 (counterexample): with one rule valid on `[0, 100]`, the code's
`getMargin` at date exactly `validTo = 100` returns the rule's 5%, while
the half-open-window lookup the claim describes returns 0. -/
theorem C4_margin_window_counterexample :
    getMargin c4cfg "labor" 100 = 5 ∧ getMarginHalfOpen c4cfg "labor" 100 = 0 := by
  constructor <;>
    simp +decide [getMargin, getMarginHalfOpen, c4cfg, baseCfg, List.find?, jsOrNum,
      defaultValidTo]

/-- C1 (code bug): `calculateBlockCost` performs no precondition validation.
On the fully degenerate block (tonnage 0, strike length 0, width 0 — the
UI's initial block input) it still returns a cost result instead of the
explicit rejection the spec requires; in the JavaScript source that result
contains `costPerTonne = grandTotal / 0`, a non-finite value. -/
theorem C1_degenerate_block_not_rejected :
    c1block.tonnage = 0 ∧ c1block.strikeLength = 0 ∧ c1block.width = 0 ∧
    (calculateBlockCost baseCfg c1block 0).isSome = true :=
  ⟨rfl, rfl, rfl, by decide⟩

/-- The fallback value `1` of an FX lookup is never zero, and a stored zero
rate is itself replaced by `1`: `jsOr v 1` is always nonzero. -/
lemma jsOr_one_ne_zero (v : Option ℚ) : jsOr v 1 ≠ 0 := by
  unfold jsOr
  match v with
  | none => norm_num
  | some x =>
    by_cases hx : x = 0
    · simp [hx]
    · simp [hx]

/-- C8: for every configuration and every pair of currency codes,
`getFXRate` satisfies exact reciprocity `rate(A→B) × rate(B→A) = 1` (the
rational embedding is exact, so "within floating tolerance of 1" holds),
identity `rate(A→A) = 1`, and — when neither side is USD — composition
through USD: `rate(A→B) = rate(A→USD) × rate(USD→B)`. -/
theorem C8_fx_reciprocity_and_cross :
    ∀ (cfg : CostModelConfig) (a b : String),
      getFXRate cfg a b * getFXRate cfg b a = 1 ∧
      getFXRate cfg a a = 1 ∧
      (a ≠ "USD" → b ≠ "USD" →
        getFXRate cfg a b = getFXRate cfg a "USD" * getFXRate cfg "USD" b) := by
  intro cfg a b
  have hane : jsOr (fxLookup cfg.fxRates a) 1 ≠ 0 := jsOr_one_ne_zero _
  have hbne : jsOr (fxLookup cfg.fxRates b) 1 ≠ 0 := jsOr_one_ne_zero _
  refine ⟨?_, by simp [getFXRate], ?_⟩
  · by_cases hab : a = b
    · simp [getFXRate, hab]
    · by_cases haU : a = "USD"
      · have hbU : b ≠ "USD" := fun h => hab (haU.trans h.symm)
        simp [getFXRate, hab, Ne.symm hab, haU, hbU, Ne.symm hbU]
        field_simp
      · by_cases hbU : b = "USD"
        · simp [getFXRate, hab, Ne.symm hab, haU, Ne.symm haU, hbU]
          field_simp
        · simp [getFXRate, hab, Ne.symm hab, haU, hbU]
          field_simp
  · intro haU hbU
    by_cases hab : a = b
    · subst hab
      simp [getFXRate, haU, Ne.symm haU]
      field_simp
    · simp [getFXRate, hab, haU, hbU, Ne.symm haU, Ne.symm hbU]

/-- C8 witness: the reciprocity, identity and USD-composition facts at the
concrete default rate table, for the EUR/CAD pair. -/
theorem C8_fx_witness :
    getFXRate baseCfg "EUR" "CAD" * getFXRate baseCfg "CAD" "EUR" = 1 ∧
    getFXRate baseCfg "EUR" "EUR" = 1 ∧
    getFXRate baseCfg "EUR" "CAD" =
      getFXRate baseCfg "EUR" "USD" * getFXRate baseCfg "USD" "CAD" := by
  obtain ⟨h1, h2, h3⟩ := C8_fx_reciprocity_and_cross baseCfg "EUR" "CAD"
  exact ⟨h1, h2, h3 (by decide) (by decide)⟩

/-- `accumulate` preserves the list length. -/
lemma accumulate_length (l : List ProjectCashflow) :
    ∀ a : ℚ, (accumulate a l).length = l.length := by
  induction l with
  | nil => intro a; rfl
  | cons cf rest ih => intro a; simp [accumulate, ih]

/-- Head of the cumulative pass: the accumulator plus the head's net. -/
lemma accumulate_head (a : ℚ) (cf : ProjectCashflow) (rest : List ProjectCashflow) :
    ((accumulate a (cf :: rest)).getD 0 defaultCashflow).cumulativeCashflow =
      a + cf.netCashflow := rfl

/-- The cumulative pass does not alter the head's net cash flow. -/
lemma accumulate_head_net (a : ℚ) (cf : ProjectCashflow) (rest : List ProjectCashflow) :
    ((accumulate a (cf :: rest)).getD 0 defaultCashflow).netCashflow = cf.netCashflow := rfl

/-- The running-sum recurrence of the cumulative pass. -/
lemma accumulate_step (l : List ProjectCashflow) :
    ∀ (a : ℚ) (i : ℕ), i + 1 < l.length →
      ((accumulate a l).getD (i + 1) defaultCashflow).cumulativeCashflow =
        ((accumulate a l).getD i defaultCashflow).cumulativeCashflow +
          ((accumulate a l).getD (i + 1) defaultCashflow).netCashflow := by
  induction l with
  | nil => intro a i h; simp at h
  | cons cf rest ih =>
    intro a i h
    cases i with
    | zero =>
      cases rest with
      | nil => simp at h
      | cons cf2 rest2 => simp [accumulate]
    | succ j =>
      have h' : j + 1 < rest.length := by
        simpa using Nat.lt_of_succ_lt_succ h
      simpa [accumulate] using ih (a + cf.netCashflow) j h'

/-- C7: every cash-flow series returned by `generateCashflow` satisfies
`cumulative[0] = net[0]` and `cumulative[i] = cumulative[i-1] + net[i]` for
every in-range `i > 0`. -/
theorem C7_cumulative_recurrence :
    ∀ (cfg : CostModelConfig) (blocks : List BlockCharacteristics)
      (schedule : List BlockSchedule) (now : Int) (cfs : List ProjectCashflow),
      generateCashflow cfg blocks schedule now = some cfs →
      (0 < cfs.length →
        (cfs.getD 0 defaultCashflow).cumulativeCashflow =
          (cfs.getD 0 defaultCashflow).netCashflow) ∧
      ∀ i : ℕ, i + 1 < cfs.length →
        (cfs.getD (i + 1) defaultCashflow).cumulativeCashflow =
          (cfs.getD i defaultCashflow).cumulativeCashflow +
            (cfs.getD (i + 1) defaultCashflow).netCashflow := by
  intro cfg blocks schedule now cfs h
  unfold generateCashflow at h
  cases hb : buildBlockCosts cfg blocks now with
  | none => rw [hb] at h; simp at h
  | some bc =>
    rw [hb] at h
    simp only [Option.map] at h
    rw [Option.some.injEq] at h
    subst h
    constructor
    · intro hlen
      cases hraw : (periodsList cfg).map (periodRecord blocks schedule bc) with
      | nil => rw [hraw] at hlen; simp [accumulate] at hlen
      | cons c rest => rw [accumulate_head, accumulate_head_net, zero_add]
    · intro i hi
      exact accumulate_step _ 0 i (by rwa [accumulate_length] at hi)

/-- C7 witness: the recurrence instantiated on the concrete 12-period
series produced by `baseCfg` with an empty schedule, at index 1. -/
theorem C7_cumulative_witness :
    generateCashflow baseCfg [] [] 0 =
      some ((generateCashflow baseCfg [] [] 0).getD []) ∧
    (((generateCashflow baseCfg [] [] 0).getD []).getD 1
        defaultCashflow).cumulativeCashflow =
      (((generateCashflow baseCfg [] [] 0).getD []).getD 0
          defaultCashflow).cumulativeCashflow +
        (((generateCashflow baseCfg [] [] 0).getD []).getD 1
            defaultCashflow).netCashflow := by
  have hsome : generateCashflow baseCfg [] [] 0 =
      some ((generateCashflow baseCfg [] [] 0).getD []) := rfl
  refine ⟨hsome, ?_⟩
  have h := C7_cumulative_recurrence baseCfg [] [] 0 _ hsome
  exact h.2 0 (by decide)

/-- When the penetration-rate resolution is undefined, the whole block cost
computation is (the JavaScript throws on `penRate.metersPerHour`). -/
lemma calculateBlockCost_none_of_findPenRate
    (cfg : CostModelConfig) (block : BlockCharacteristics) (now : Int)
    (hp : findPenRate cfg block = none) :
    calculateBlockCost cfg block now = none := by
  unfold calculateBlockCost calculateLaborCost
  rw [hp]
  rfl

/-- When the penetration-rate resolution succeeds, every cost component and
hence the whole block cost computation returns a value. -/
lemma calculateBlockCost_isSome_of_findPenRate
    (cfg : CostModelConfig) (block : BlockCharacteristics) (now : Int)
    (pen : PenRateEntry) (hp : findPenRate cfg block = some pen) :
    (calculateBlockCost cfg block now).isSome = true := by
  simp only [calculateBlockCost, calculateLaborCost, calculateEquipmentCost,
    calculateEnergyCost, calculateMaintenanceCost, calculateOverhead, estimateMiningHours,
    hp, Option.map, Option.bind, Option.isSome]
  simp

/-- C10: `calculateBlockCost` is total only when the `penetrationRate[1]`
fallback exists: with no case-insensitive rock-type match and fewer than two
configured entries it faults (returns no result — the source throws a
`TypeError`); with a matching entry, or at least two configured entries, it
returns a result. -/
theorem C10_penetration_fallback_partiality :
    ∀ (cfg : CostModelConfig) (block : BlockCharacteristics) (now : Int),
      (cfg.projectParameters.penetrationRate.find?
          (fun r => strToLower r.rockType = strToLower block.rockType) = none →
        cfg.projectParameters.penetrationRate.length < 2 →
        calculateBlockCost cfg block now = none) ∧
      ((∃ r ∈ cfg.projectParameters.penetrationRate,
          strToLower r.rockType = strToLower block.rockType) ∨
        2 ≤ cfg.projectParameters.penetrationRate.length →
        (calculateBlockCost cfg block now).isSome = true) := by
  intro cfg block now
  constructor
  · intro hfind hlen
    apply calculateBlockCost_none_of_findPenRate
    unfold findPenRate
    rw [hfind]
    exact List.get?_eq_none.mpr (by omega)
  · intro h
    have hsome : (findPenRate cfg block).isSome = true := by
      unfold findPenRate
      cases hfind : cfg.projectParameters.penetrationRate.find?
          (fun r => strToLower r.rockType = strToLower block.rockType) with
      | some r => rfl
      | none =>
        rcases h with h | h
        · obtain ⟨r, hr, hmatch⟩ := h
          have := List.find?_eq_none.mp hfind r hr
          simp [hmatch] at this
        · have : cfg.projectParameters.penetrationRate.get? 1 ≠ none := by
            intro hnone
            rw [List.get?_eq_none] at hnone
            omega
          cases hg : cfg.projectParameters.penetrationRate.get? 1 with
          | some r => rfl
          | none => exact absurd hg this
    obtain ⟨pen, hp⟩ := Option.isSome_iff_exists.mp hsome
    exact calculateBlockCost_isSome_of_findPenRate cfg block now pen hp

/-- C10 witness: with one configured entry and an unmatched rock type the
calculation faults; with the full default entry list it returns a result. -/
theorem C10_penetration_fallback_witness :
    calculateBlockCost c10cfgShort c10block 0 = none ∧
    (calculateBlockCost baseCfg c10block 0).isSome = true := by
  constructor
  · exact (C10_penetration_fallback_partiality c10cfgShort c10block 0).1
      (by decide) (by decide)
  · exact (C10_penetration_fallback_partiality baseCfg c10block 0).2 (Or.inr (by decide))


/-- `some a >>= f` reduces to `f a`. -/
lemma optionSomeBind {α β : Type} (a : α) (f : α → Option β) : (some a >>= f) = f a := rfl

/-- `pure a >>= f` reduces to `f a` in `Option`. -/
lemma optionPureBind {α β : Type} (a : α) (f : α → Option β) :
    ((pure a : Option α) >>= f) = f a := rfl

/-- The margin-adjustment fold equals the summed percentages applied once
to the shared subtotal (margins never compound). -/
lemma marginAdj_eq (lm em st : ℚ) :
    ((if lm ≠ 0 then [(⟨"labor", lm⟩ : AppliedMargin)] else []) ++
      (if em ≠ 0 then [(⟨"equipment", em⟩ : AppliedMargin)] else [])).foldl
      (fun sum m => sum + m.amount / 100 * st) 0 = (lm + em) / 100 * st := by
  by_cases h1 : lm = 0 <;> by_cases h2 : em = 0 <;> simp [h1, h2] <;> ring

/-- C5: for every result of `calculateBlockCost`: subtotal is the OPEX
total plus the CAPEX total; grandTotal is subtotal + risk adjustment +
margin adjustment + discount adjustment (identically 0, the discount list
is an empty placeholder) + contingency, each adjustment a percentage of the
same subtotal, not compounded; costPerTonne is grandTotal / tonnage; and
costPerMeter is grandTotal / strikeLength, or / 1 when strikeLength is 0. -/
theorem C5_assembly_identity :
    ∀ (cfg : CostModelConfig) (block : BlockCharacteristics) (now : Int)
      (r : BlockCostResult),
      calculateBlockCost cfg block now = some r →
      r.subtotal = r.opexComponent.total + r.capexComponent.total ∧
      r.grandTotal =
        r.subtotal + r.subtotal * ((calculateRiskPremium cfg block).1 / 100) +
          (getMargin cfg "labor" now + getMargin cfg "equipment" now) / 100 * r.subtotal +
          (0 : ℚ) + r.contingency ∧
      r.contingency = r.subtotal * (cfg.calculatorSettings.contingencyPercent / 100) ∧
      r.costPerTonne = r.grandTotal / block.tonnage ∧
      r.costPerMeter =
        r.grandTotal / (if block.strikeLength = 0 then 1 else block.strikeLength) := by
  intro cfg block now r h
  cases hp : findPenRate cfg block with
  | none =>
    rw [calculateBlockCost_none_of_findPenRate cfg block now hp] at h
    exact absurd h (by simp)
  | some pen =>
    simp only [calculateBlockCost, calculateLaborCost, calculateEquipmentCost,
      calculateEnergyCost, calculateMaintenanceCost, calculateOverhead, estimateMiningHours,
      hp, Option.map, optionSomeBind, optionPureBind, Option.pure_def, Option.some.injEq] at h
    subst h
    refine ⟨rfl, ?_, rfl, rfl, ?_⟩
    · simp only [marginAdj_eq, List.foldl_nil]
    · simp only [jsOrNum]

/-- C5 witness: the assembly identity instantiated on the concrete
`c5cfg`/`c5block`, whose computation returns a result. -/
theorem C5_assembly_witness :
    calculateBlockCost c5cfg c5block 0 =
      some ((calculateBlockCost c5cfg c5block 0).getD defaultBlockCostResult) ∧
    ((calculateBlockCost c5cfg c5block 0).getD defaultBlockCostResult).subtotal =
      ((calculateBlockCost c5cfg c5block 0).getD defaultBlockCostResult).opexComponent.total +
        ((calculateBlockCost c5cfg c5block 0).getD defaultBlockCostResult).capexComponent.total ∧
    ((calculateBlockCost c5cfg c5block 0).getD defaultBlockCostResult).grandTotal =
      ((calculateBlockCost c5cfg c5block 0).getD defaultBlockCostResult).subtotal +
        ((calculateBlockCost c5cfg c5block 0).getD defaultBlockCostResult).subtotal *
          ((calculateRiskPremium c5cfg c5block).1 / 100) +
        (getMargin c5cfg "labor" 0 + getMargin c5cfg "equipment" 0) / 100 *
          ((calculateBlockCost c5cfg c5block 0).getD defaultBlockCostResult).subtotal +
        (0 : ℚ) +
        ((calculateBlockCost c5cfg c5block 0).getD defaultBlockCostResult).contingency ∧
    ((calculateBlockCost c5cfg c5block 0).getD defaultBlockCostResult).contingency =
      ((calculateBlockCost c5cfg c5block 0).getD defaultBlockCostResult).subtotal *
        (c5cfg.calculatorSettings.contingencyPercent / 100) ∧
    ((calculateBlockCost c5cfg c5block 0).getD defaultBlockCostResult).costPerTonne =
      ((calculateBlockCost c5cfg c5block 0).getD defaultBlockCostResult).grandTotal /
        c5block.tonnage ∧
    ((calculateBlockCost c5cfg c5block 0).getD defaultBlockCostResult).costPerMeter =
      ((calculateBlockCost c5cfg c5block 0).getD defaultBlockCostResult).grandTotal /
        (if c5block.strikeLength = 0 then 1 else c5block.strikeLength) := by
  have hsome : calculateBlockCost c5cfg c5block 0 =
      some ((calculateBlockCost c5cfg c5block 0).getD defaultBlockCostResult) := rfl
  have h := C5_assembly_identity c5cfg c5block 0 _ hsome
  exact ⟨hsome, h.1, h.2.1, h.2.2.1, h.2.2.2.1, h.2.2.2.2⟩


/-- On a single-entry series the accumulated NPV derivative is zero (the
only term carries the factor `t/12 = 0`). -/
lemma derivAt_single (c r : ℝ) : derivAt [c] r = 0 := by
  simp [derivAt, List.enum, List.enumFrom]

/-- `calculateIRR` on any single-entry series returns `null`: the first
iteration sees a derivative below the tolerance. -/
lemma calculateIRR_single (c : ℝ) : calculateIRR [c] = none := by
  unfold calculateIRR
  have h100 : (100 : ℕ) = 99 + 1 := rfl
  rw [h100, irrGo]
  rw [if_pos]
  rw [derivAt_single]
  simp [tolIRR]

/-- C2 (counterexample): on the one-period series with net cash flow 100,
`calculateIRR` reports the explicit absent value, but `generateSummary`
coerces it (`irr || 0`) and reports the NUMBER 0, not an absent value. -/
theorem C2_summary_irr_counterexample :
    calculateIRR [((100 : ℚ) : ℝ)] = none ∧
    (generateSummary baseCfg [c2cashflow]).irr = 0 := by
  constructor
  · exact calculateIRR_single _
  · simp [generateSummary, c2cashflow, defaultCashflow, jsOrR, calculateIRR_single]

/-- C2 (amended): whenever the Newton-Raphson iteration fails
(non-convergence or a near-zero derivative), `calculateIRR` returns the
explicit absent value `none`, but `generateSummary` reports `irr = 0`. -/
theorem C2_summary_irr_amended :
    ∀ (cfg : CostModelConfig) (cashflows : List ProjectCashflow),
      calculateIRR (cashflows.map (fun cf => (cf.netCashflow : ℝ))) = none →
      (generateSummary cfg cashflows).irr = 0 := by
  intro cfg cfs h
  simp [generateSummary, h, jsOrR]

/-- C2 witness: the amended statement instantiated on the concrete
one-period series. -/
theorem C2_summary_irr_witness :
    calculateIRR ([c2cashflow].map (fun cf => (cf.netCashflow : ℝ))) = none ∧
    (generateSummary baseCfg [c2cashflow]).irr = 0 := by
  have h : calculateIRR ([c2cashflow].map (fun cf => (cf.netCashflow : ℝ))) = none := by
    simp only [List.map]
    exact calculateIRR_single _
  exact ⟨h, C2_summary_irr_amended baseCfg [c2cashflow] h⟩

/-- Any value returned by the Newton-Raphson loop is a final Newton step
from some rate with above-tolerance derivative, and the step was smaller
than the tolerance. -/
lemma irrGo_some (l : List ℝ) (n : ℕ) :
    ∀ (rate r : ℝ), irrGo l n rate = some r →
      ∃ ρ : ℝ, tolIRR ≤ |derivAt l ρ| ∧
        r = ρ - npvAt l ρ / derivAt l ρ ∧ |r - ρ| < tolIRR := by
  induction n with
  | zero => intro rate r h; simp [irrGo] at h
  | succ n ih =>
    intro rate r h
    rw [irrGo] at h
    split at h
    · simp at h
    · rename_i hd
      replace h :
          (if |rate - npvAt l rate / derivAt l rate - rate| < tolIRR then
            some (rate - npvAt l rate / derivAt l rate)
          else irrGo l n (rate - npvAt l rate / derivAt l rate)) = some r := h
      split at h
      · rename_i hc
        have hr := (Option.some.injEq _ _).mp h
        refine ⟨rate, not_lt.mp hd, hr.symm, ?_⟩
        rw [← hr]
        exact hc
      · exact ih _ r h

/-- The NPV the IRR loop computes for `[-1000, 1100]`: entry 1 is
discounted by `(1+ρ)^(1/12)` (exponent `t/12`, monthly index). -/
lemma npvAt_pair (ρ : ℝ) :
    npvAt [-1000, 1100] ρ = -1000 + 1100 / (1 + ρ) ^ ((1 : ℝ) / 12) := by
  simp [npvAt, List.enum, List.enumFrom, Real.rpow_zero]

/-- The NPV derivative the IRR loop computes for `[-1000, 1100]`. -/
lemma derivAt_pair (ρ : ℝ) :
    derivAt [-1000, 1100] ρ =
      -(1 / 12 * 1100 / ((1 + ρ) ^ ((1 : ℝ) / 12) * (1 + ρ))) := by
  simp [derivAt, List.enum, List.enumFrom, Real.rpow_zero]

/-- Bernoulli-type bound: the twelfth root of `1+x` is at most `1 + x/12`
for nonnegative `x`. -/
lemma rpow_twelfth_le (x : ℝ) (hx : 0 ≤ x) :
    (1 + x) ^ ((1 : ℝ) / 12) ≤ 1 + x / 12 := by
  have hb : (0 : ℝ) ≤ 1 + x / 12 := by linarith
  have h12 : (1 : ℝ) + x ≤ (1 + x / 12) ^ (12 : ℕ) := by
    have hber := one_add_mul_le_pow (a := x / 12) (by linarith) 12
    calc (1 : ℝ) + x = 1 + (12 : ℕ) * (x / 12) := by push_cast; ring
      _ ≤ (1 + x / 12) ^ (12 : ℕ) := hber
  calc (1 + x) ^ ((1 : ℝ) / 12)
      ≤ ((1 + x / 12) ^ (12 : ℕ)) ^ ((1 : ℝ) / 12) := by
        apply Real.rpow_le_rpow (by linarith) h12 (by norm_num)
    _ = 1 + x / 12 := by
        rw [← Real.rpow_natCast (1 + x / 12) 12, ← Real.rpow_mul hb]
        norm_num

/-- Near 10% the code-computed NPV of `[-1000, 1100]` stays at least 90 —
nowhere near a root. -/
lemma npv_pair_lower (ρ : ℝ) (h0 : 0 ≤ ρ) (h1 : ρ ≤ 1011 / 10000) :
    90 ≤ npvAt [-1000, 1100] ρ := by
  rw [npvAt_pair]
  have hp : (0 : ℝ) < (1 + ρ) ^ ((1 : ℝ) / 12) := Real.rpow_pos_of_pos (by linarith) _
  have hle : (1 + ρ) ^ ((1 : ℝ) / 12) ≤ 121011 / 120000 := by
    calc (1 + ρ) ^ ((1 : ℝ) / 12) ≤ 1 + ρ / 12 := rpow_twelfth_le ρ h0
      _ ≤ 121011 / 120000 := by linarith
  have hdiv : (1100 : ℝ) / (121011 / 120000) ≤ 1100 / (1 + ρ) ^ ((1 : ℝ) / 12) :=
    div_le_div_of_nonneg_left (by norm_num) hp hle
  have : (90 : ℝ) ≤ -1000 + 1100 / (121011 / 120000) := by norm_num
  linarith

/-- For nonnegative rates the code-computed NPV derivative of
`[-1000, 1100]` is bounded by `1100/12` in magnitude. -/
lemma deriv_pair_bound (ρ : ℝ) (h0 : 0 ≤ ρ) : |derivAt [-1000, 1100] ρ| ≤ 1100 / 12 := by
  rw [derivAt_pair]
  have h1 : (1 : ℝ) ≤ (1 + ρ) ^ ((1 : ℝ) / 12) := Real.one_le_rpow (by linarith) (by norm_num)
  have h2 : (1 : ℝ) ≤ 1 + ρ := by linarith
  have hd1 : (1 : ℝ) ≤ (1 + ρ) ^ ((1 : ℝ) / 12) * (1 + ρ) := by nlinarith
  have hnn : (0 : ℝ) ≤ 1 / 12 * 1100 / ((1 + ρ) ^ ((1 : ℝ) / 12) * (1 + ρ)) := by
    apply div_nonneg (by norm_num) (by linarith)
  rw [abs_neg, abs_of_nonneg hnn]
  calc (1 : ℝ) / 12 * 1100 / ((1 + ρ) ^ ((1 : ℝ) / 12) * (1 + ρ))
      ≤ 1 / 12 * 1100 := div_le_self (by norm_num) hd1
    _ ≤ 1100 / 12 := by norm_num

/-- C3 (counterexample): `calculateIRR` on `[-1000, 1100]` cannot return a
rate within 0.1% of 10%: any returned value is a sub-tolerance Newton step
from a rate where the NPV is at least 90 while the derivative is at most
`1100/12`, so the step size would exceed the tolerance by orders of
magnitude. -/
theorem C3_irr_example_counterexample :
    ¬ ∃ r : ℝ, calculateIRR [-1000, 1100] = some r ∧ |r - 1 / 10| ≤ 1 / 1000 := by
  rintro ⟨r, hcalc, hnear⟩
  unfold calculateIRR at hcalc
  obtain ⟨ρ, hd, hr, hstep⟩ := irrGo_some _ _ _ _ hcalc
  have htol : tolIRR = 1 / 10000 := by norm_num [tolIRR]
  have hρr : |ρ - r| < 1 / 10000 := by
    rw [abs_sub_comm]; rw [htol] at hstep; exact hstep
  have hρnear : |ρ - 1 / 10| < 11 / 10000 := by
    calc |ρ - 1 / 10| ≤ |ρ - r| + |r - 1 / 10| := abs_sub_le ρ r (1 / 10)
      _ < 1 / 10000 + 1 / 1000 := by
          have := hnear
          linarith [hρr]
      _ = 11 / 10000 := by norm_num
  obtain ⟨hlo, hhi⟩ := abs_lt.mp hρnear
  have h0 : (0 : ℝ) ≤ ρ := by linarith
  have h1 : ρ ≤ 1011 / 10000 := by linarith
  have hnpv : 90 ≤ npvAt [-1000, 1100] ρ := npv_pair_lower ρ h0 h1
  have hdb : |derivAt [-1000, 1100] ρ| ≤ 1100 / 12 := deriv_pair_bound ρ h0
  have hdne : derivAt [-1000, 1100] ρ ≠ 0 := by
    intro hz
    rw [hz] at hd
    rw [htol] at hd
    simp at hd
    linarith
  have hq : |npvAt [-1000, 1100] ρ / derivAt [-1000, 1100] ρ| < tolIRR := by
    have heq : npvAt [-1000, 1100] ρ / derivAt [-1000, 1100] ρ = -(r - ρ) := by
      rw [hr]; ring
    rw [heq, abs_neg]
    exact hstep
  rw [htol, abs_div] at hq
  have habs : 90 ≤ |npvAt [-1000, 1100] ρ| := le_trans hnpv (le_abs_self _)
  have hdpos : 0 < |derivAt [-1000, 1100] ρ| := abs_pos.mpr hdne
  have hlt : |npvAt [-1000, 1100] ρ| < 1 / 10000 * |derivAt [-1000, 1100] ρ| :=
    (div_lt_iff₀ hdpos).mp hq
  have : (1 : ℝ) / 10000 * |derivAt [-1000, 1100] ρ| ≤ 1 / 10000 * (1100 / 12) :=
    mul_le_mul_of_nonneg_left hdb (by norm_num)
  linarith

/-- C3 (amended): because `calculateIRR` discounts entry `t` by
`(1+r)^(t/12)` (monthly indices), the rate that zeroes its NPV for
`[-1000, 1100]` is `1.1^12 - 1 ≈ 213.84%`, not 10%; at 10% the NPV is
still at least 90. -/
theorem C3_irr_example_amended :
    npvAt [-1000, 1100] ((11 / 10 : ℝ) ^ (12 : ℕ) - 1) = 0 ∧
    90 ≤ npvAt [-1000, 1100] (1 / 10) := by
  constructor
  · rw [npvAt_pair]
    have hstep : (1 : ℝ) + ((11 / 10 : ℝ) ^ (12 : ℕ) - 1) = (11 / 10 : ℝ) ^ (12 : ℕ) := by
      ring
    rw [hstep]
    rw [← Real.rpow_natCast (11 / 10 : ℝ) 12, ← Real.rpow_mul (by norm_num)]
    norm_num
  · exact npv_pair_lower (1 / 10) (by norm_num) (by norm_num)

/-- The `equipment_cost` branch of `applyVariation` at +10%: every catalog
item base cost scaled by 11/10, all other configuration fields unchanged. -/
lemma applyVariation_equipment (cfg : CostModelConfig) :
    applyVariation cfg "equipment_cost" 10 = variedCfg cfg := by
  unfold applyVariation variedCfg
  rw [if_neg (by decide), if_pos rfl]
  have h : (1 : ℚ) + 10 / 100 = 11 / 10 := by norm_num
  rw [h]
  rfl

/-- An additive fold is the initial value plus the sum of the mapped list. -/
lemma foldl_add_eq_sum {α : Type} (f : α → ℚ) (l : List α) :
    ∀ a : ℚ, l.foldl (fun acc x => acc + f x) a = a + (l.map f).sum := by
  induction l with
  | nil => intro a; simp
  | cons x xs ih => intro a; simp [ih]; ring

/-- The raw equipment capital scales by exactly 11/10 under the variation. -/
lemma totalEquipmentCapital_varied (cfg : CostModelConfig) :
    totalEquipmentCapital (variedCfg cfg) =
      11 / 10 * totalEquipmentCapital cfg := by
  unfold totalEquipmentCapital variedCfg
  rw [foldl_add_eq_sum, foldl_add_eq_sum]
  simp only [List.map_map]
  rw [show ((fun item => item.baseCost) ∘ itemScale) = fun item =>
    (11 : ℚ) / 10 * item.baseCost from funext (fun i => by simp [itemScale]; ring)]
  rw [List.sum_map_mul_left]
  ring

/-- The `|| 1` pattern on a nonnegative number is positive. -/
lemma ite_zero_pos (x : ℚ) (hx : 0 ≤ x) : 0 < if x = 0 then 1 else x := by
  by_cases h : x = 0
  · simp [h]
  · simpa [h] using lt_of_le_of_ne hx (Ne.symm h)

/-- With nonnegative configured rates, every FX table lookup (with its
`|| 1` fallback) is positive. -/
lemma jsOr_pos_of_nonneg (cfg : CostModelConfig) (h : FxNonneg cfg) (c : String) :
    0 < jsOr (fxLookup cfg.fxRates c) 1 := by
  obtain ⟨h1, h2, h3, h4⟩ := h
  unfold jsOr fxLookup
  split_ifs
  · exact ite_zero_pos _ h1
  · exact ite_zero_pos _ h2
  · exact ite_zero_pos _ h3
  · exact ite_zero_pos _ h4
  · norm_num

/-- With nonnegative configured rates, every FX conversion multiplier is
positive. -/
lemma getFXRate_pos (cfg : CostModelConfig) (h : FxNonneg cfg) (a b : String) :
    0 < getFXRate cfg a b := by
  unfold getFXRate
  split_ifs
  · norm_num
  · exact jsOr_pos_of_nonneg cfg h b
  · exact div_pos (by norm_num) (jsOr_pos_of_nonneg cfg h a)
  · exact mul_pos (div_pos (by norm_num) (jsOr_pos_of_nonneg cfg h a))
      (jsOr_pos_of_nonneg cfg h b)

/-- Hourly equipment cost and maintenance rates are linear in the base
cost: the +10% variation scales both by 11/10. -/
lemma equipmentRateOf_varied (cfg : CostModelConfig) (item : EquipmentItem) :
    (equipmentRateOf (variedCfg cfg) (itemScale item)).costPerHour =
      11 / 10 * (equipmentRateOf cfg item).costPerHour ∧
    (equipmentRateOf (variedCfg cfg) (itemScale item)).maintenancePerHour =
      11 / 10 * (equipmentRateOf cfg item).maintenancePerHour := by
  have hfx : ∀ a b : String,
      getFXRate (variedCfg cfg) a b = getFXRate cfg a b := fun a b => rfl
  have hset : (variedCfg cfg).calculatorSettings = cfg.calculatorSettings := rfl
  have hbase : (itemScale item).baseCost = item.baseCost * (11 / 10) := rfl
  have hcur : (itemScale item).currency = item.currency := rfl
  have hlif : (itemScale item).usefulLifeYears = item.usefulLifeYears := rfl
  have hsal : (itemScale item).salvageValue = item.salvageValue := rfl
  unfold equipmentRateOf
  simp only [hfx, hset, hbase, hcur, hlif, hsal]
  constructor <;> ring

/-- Well-formed items yield nonnegative hourly cost and maintenance
rates. -/
lemma equipmentRate_nonneg (cfg : CostModelConfig) (item : EquipmentItem)
    (hfxp : 0 < getFXRate cfg item.currency cfg.calculatorSettings.projectCurrency)
    (hb : 0 ≤ item.baseCost) (hlife : 0 < item.usefulLifeYears)
    (hsal : item.salvageValue ≤ 100) :
    0 ≤ (equipmentRateOf cfg item).costPerHour ∧
    0 ≤ (equipmentRateOf cfg item).maintenancePerHour := by
  unfold equipmentRateOf
  simp only
  have hc : 0 ≤ item.baseCost * getFXRate cfg item.currency cfg.calculatorSettings.projectCurrency :=
    mul_nonneg hb hfxp.le
  have hdep : 0 ≤ item.baseCost * getFXRate cfg item.currency cfg.calculatorSettings.projectCurrency *
      (1 - item.salvageValue / 100) / item.usefulLifeYears := by
    apply div_nonneg _ hlife.le
    apply mul_nonneg hc
    linarith
  constructor
  · apply div_nonneg _ (by norm_num)
    have h5 : 0 ≤ item.baseCost *
        getFXRate cfg item.currency cfg.calculatorSettings.projectCurrency * (5 / 100) :=
      mul_nonneg hc (by norm_num)
    have h2 : 0 ≤ item.baseCost *
        getFXRate cfg item.currency cfg.calculatorSettings.projectCurrency * (2 / 100) :=
      mul_nonneg hc (by norm_num)
    linarith
  · apply div_nonneg _ (by norm_num)
    exact mul_nonneg hc (by norm_num)

/-- A resolved penetration-rate entry is one of the configured entries. -/
lemma findPenRate_mem (cfg : CostModelConfig) (block : BlockCharacteristics)
    (pen : PenRateEntry) (hp : findPenRate cfg block = some pen) :
    pen ∈ cfg.projectParameters.penetrationRate := by
  unfold findPenRate at hp
  cases hfind : cfg.projectParameters.penetrationRate.find?
      (fun r => strToLower r.rockType = strToLower block.rockType) with
  | some r =>
    rw [hfind] at hp
    cases hp
    exact List.mem_of_find?_eq_some hfind
  | none =>
    rw [hfind] at hp
    exact List.get?_mem hp

/-- With at least two configured entries the penetration-rate resolution
always succeeds. -/
lemma findPenRate_isSome_of_len (cfg : CostModelConfig) (block : BlockCharacteristics)
    (hlen : 2 ≤ cfg.projectParameters.penetrationRate.length) :
    ∃ pen, findPenRate cfg block = some pen := by
  unfold findPenRate
  cases hfind : cfg.projectParameters.penetrationRate.find?
      (fun r => strToLower r.rockType = strToLower block.rockType) with
  | some r => exact ⟨r, rfl⟩
  | none =>
    cases hg : cfg.projectParameters.penetrationRate.get? 1 with
    | some r => exact ⟨r, rfl⟩
    | none =>
      rw [List.get?_eq_none] at hg
      omega

/-- The variation does not touch the penetration-rate table. -/
lemma findPenRate_varied (cfg : CostModelConfig) (block : BlockCharacteristics) :
    findPenRate (variedCfg cfg) block = findPenRate cfg block := rfl

/-- Nonnegative availabilities give a nonnegative OEE product. -/
lemma oeeOf_nonneg (cfg : CostModelConfig)
    (hav : 0 ≤ cfg.projectParameters.availability.planned ∧
      0 ≤ cfg.projectParameters.availability.mechanical ∧
      0 ≤ cfg.projectParameters.availability.operational) : 0 ≤ oeeOf cfg :=
  mul_nonneg (mul_nonneg hav.1 hav.2.1) hav.2.2

/-- Nonnegative geometry, penetration rate and OEE give nonnegative mining
hours. -/
lemma miningHours_nonneg (cfg : CostModelConfig) (block : BlockCharacteristics)
    (pen : PenRateEntry)
    (hpen : ∀ p ∈ cfg.projectParameters.penetrationRate, 0 ≤ p.metersPerHour)
    (hmem : pen ∈ cfg.projectParameters.penetrationRate)
    (hoe : 0 ≤ oeeOf cfg)
    (hsl : 0 ≤ block.strikeLength) (hw : 0 ≤ block.width) :
    0 ≤ block.strikeLength * block.width / pen.metersPerHour / oeeOf cfg := by
  apply div_nonneg _ hoe
  exact div_nonneg (mul_nonneg hsl hw) (hpen pen hmem)

/-- Labor cost reads no equipment data: unchanged under the variation. -/
lemma labor_varied (cfg : CostModelConfig) (block : BlockCharacteristics) :
    calculateLaborCost (variedCfg cfg) block = calculateLaborCost cfg block := rfl

/-- Energy cost reads only the (unscaled) nameplate powers: unchanged
under the variation. -/
lemma energy_varied (cfg : CostModelConfig) (block : BlockCharacteristics) :
    calculateEnergyCost (variedCfg cfg) block = calculateEnergyCost cfg block := by
  unfold calculateEnergyCost
  have hest : estimateMiningHours (variedCfg cfg) block = estimateMiningHours cfg block := rfl
  rw [hest]
  have hfold : (variedCfg cfg).equipmentCatalog.items.foldl
      (fun acc item => acc + jsOr item.powerKW 0) 0 =
      cfg.equipmentCatalog.items.foldl (fun acc item => acc + jsOr item.powerKW 0) 0 := by
    show (cfg.equipmentCatalog.items.map itemScale).foldl
      (fun acc item => acc + jsOr item.powerKW 0) 0 = _
    rw [List.foldl_map]
    rfl
  simp only
  rw [hfold]

/-- Monotonicity of additive folds under pointwise comparison. -/
lemma foldl_add_mono {α : Type} (f g : α → ℚ) (l : List α)
    (hfg : ∀ x ∈ l, f x ≤ g x) :
    ∀ a b : ℚ, a ≤ b →
      l.foldl (fun acc x => acc + f x) a ≤ l.foldl (fun acc x => acc + g x) b := by
  induction l with
  | nil => intro a b hab; simpa using hab
  | cons x xs ih =>
    intro a b hab
    simp only [List.foldl_cons]
    apply ih (fun y hy => hfg y (List.mem_cons_of_mem x hy))
    have := hfg x (List.mem_cons_self x xs)
    linarith

/-- Maintenance cost does not decrease under the +10% equipment variation. -/
lemma maintenance_varied_ge (cfg : CostModelConfig) (block : BlockCharacteristics)
    (pen : PenRateEntry) (hp : findPenRate cfg block = some pen)
    (hfxn : FxNonneg cfg) (hitems : ItemsWF cfg)
    (hh : 0 ≤ block.strikeLength * block.width / pen.metersPerHour / oeeOf cfg) :
    (calculateMaintenanceCost cfg block).getD 0 ≤
      (calculateMaintenanceCost (variedCfg cfg) block).getD 0 := by
  have hpV : findPenRate (variedCfg cfg) block = some pen := by
    rw [findPenRate_varied]; exact hp
  have hoeV : oeeOf (variedCfg cfg) = oeeOf cfg := rfl
  simp only [calculateMaintenanceCost, estimateMiningHours, hp, hpV, hoeV,
    Option.map, Option.getD]
  show (cfg.equipmentCatalog.items.map (equipmentRateOf cfg)).foldl
      (fun totalMaintenance rate => totalMaintenance + rate.maintenancePerHour *
        (block.strikeLength * block.width / pen.metersPerHour / oeeOf cfg)) 0 ≤
    ((cfg.equipmentCatalog.items.map itemScale).map (equipmentRateOf (variedCfg cfg))).foldl
      (fun totalMaintenance rate => totalMaintenance + rate.maintenancePerHour *
        (block.strikeLength * block.width / pen.metersPerHour / oeeOf cfg)) 0
  rw [List.foldl_map, List.foldl_map, List.foldl_map]
  apply foldl_add_mono _ _ _ _ 0 0 le_rfl
  intro x hx
  obtain ⟨hb, hlife, hsal⟩ := hitems x hx
  have hfxp := getFXRate_pos cfg hfxn x.currency cfg.calculatorSettings.projectCurrency
  have hnn := (equipmentRate_nonneg cfg x hfxp hb.le hlife hsal).2
  have hsc := (equipmentRateOf_varied cfg x).2
  rw [hsc]
  have hmh : 0 ≤ (equipmentRateOf cfg x).maintenancePerHour *
      (block.strikeLength * block.width / pen.metersPerHour / oeeOf cfg) :=
    mul_nonneg hnn hh
  nlinarith

/-- Equipment operating cost does not decrease under the variation. -/
lemma equipment_varied_ge (cfg : CostModelConfig) (block : BlockCharacteristics)
    (pen : PenRateEntry) (hp : findPenRate cfg block = some pen)
    (hfxn : FxNonneg cfg) (hitems : ItemsWF cfg)
    (hh : 0 ≤ block.strikeLength * block.width / pen.metersPerHour / oeeOf cfg) :
    (calculateEquipmentCost cfg block).getD 0 ≤
      (calculateEquipmentCost (variedCfg cfg) block).getD 0 := by
  have hpV : findPenRate (variedCfg cfg) block = some pen := by
    rw [findPenRate_varied]; exact hp
  have hoeV : oeeOf (variedCfg cfg) = oeeOf cfg := rfl
  simp only [calculateEquipmentCost, estimateMiningHours, hp, hpV, hoeV,
    Option.map, Option.getD]
  show (cfg.equipmentCatalog.items.map (equipmentRateOf cfg)).foldl
      (fun totalEquipment rate => totalEquipment + rate.costPerHour *
        (block.strikeLength * block.width / pen.metersPerHour / oeeOf cfg)) 0 ≤
    ((cfg.equipmentCatalog.items.map itemScale).map (equipmentRateOf (variedCfg cfg))).foldl
      (fun totalEquipment rate => totalEquipment + rate.costPerHour *
        (block.strikeLength * block.width / pen.metersPerHour / oeeOf cfg)) 0
  rw [List.foldl_map, List.foldl_map, List.foldl_map]
  apply foldl_add_mono _ _ _ _ 0 0 le_rfl
  intro x hx
  obtain ⟨hb, hlife, hsal⟩ := hitems x hx
  have hfxp := getFXRate_pos cfg hfxn x.currency cfg.calculatorSettings.projectCurrency
  have hnn := (equipmentRate_nonneg cfg x hfxp hb.le hlife hsal).1
  have hsc := (equipmentRateOf_varied cfg x).1
  rw [hsc]
  have hmh : 0 ≤ (equipmentRateOf cfg x).costPerHour *
      (block.strikeLength * block.width / pen.metersPerHour / oeeOf cfg) :=
    mul_nonneg hnn hh
  nlinarith

/-- Overhead (15% of labor+equipment) does not decrease under the
variation. -/
lemma overhead_varied_ge (cfg : CostModelConfig) (block : BlockCharacteristics)
    (pen : PenRateEntry) (hp : findPenRate cfg block = some pen)
    (hfxn : FxNonneg cfg) (hitems : ItemsWF cfg)
    (hh : 0 ≤ block.strikeLength * block.width / pen.metersPerHour / oeeOf cfg) :
    (calculateOverhead cfg block).getD 0 ≤
      (calculateOverhead (variedCfg cfg) block).getD 0 := by
  have hpV : findPenRate (variedCfg cfg) block = some pen := by
    rw [findPenRate_varied]; exact hp
  have hlab : (calculateLaborCost cfg block).isSome = true := by
    simp [calculateLaborCost, hp]
  have heqp := equipment_varied_ge cfg block pen hp hfxn hitems hh
  have heqB : (calculateEquipmentCost cfg block).isSome = true := by
    simp [calculateEquipmentCost, estimateMiningHours, hp]
  have heqV : (calculateEquipmentCost (variedCfg cfg) block).isSome = true := by
    simp [calculateEquipmentCost, estimateMiningHours, hpV]
  obtain ⟨lv, hlv⟩ := Option.isSome_iff_exists.mp hlab
  obtain ⟨eB, heB⟩ := Option.isSome_iff_exists.mp heqB
  obtain ⟨eV, heV⟩ := Option.isSome_iff_exists.mp heqV
  have hlabV : calculateLaborCost (variedCfg cfg) block = some lv := by
    rw [labor_varied]; exact hlv
  simp only [calculateOverhead, hlv, hlabV, heB, heV, optionSomeBind, Option.pure_def,
    Option.getD]
  rw [heB, heV] at heqp
  simp only [Option.getD] at heqp
  nlinarith

/-- The base-cost fold over scaled items is 11/10 of the original fold. -/
lemma foldl_baseCost_map_scale (l : List EquipmentItem) :
    (l.map itemScale).foldl (fun sum item => sum + item.baseCost) 0 =
      11 / 10 * l.foldl (fun sum item => sum + item.baseCost) 0 := by
  rw [List.foldl_map]
  rw [foldl_add_eq_sum, foldl_add_eq_sum]
  rw [show (fun x : EquipmentItem => (itemScale x).baseCost) = fun x =>
    (11 : ℚ) / 10 * x.baseCost from funext (fun i => by simp [itemScale]; ring)]
  rw [List.sum_map_mul_left]
  ring

/-- For nonzero tonnage, the per-block CAPEX allocation grows by exactly
`totalEquipmentCapital/10000` under the variation (the tonnage cancels in
the depreciation term). -/
lemma capex_varied (cfg : CostModelConfig) (block : BlockCharacteristics)
    (ht : block.tonnage ≠ 0) :
    (calculateCAPEXAllocation (variedCfg cfg) block).total =
      (calculateCAPEXAllocation cfg block).total + totalEquipmentCapital cfg / 10000 := by
  unfold calculateCAPEXAllocation totalEquipmentCapital
  simp only
  have hitemsV : (variedCfg cfg).equipmentCatalog.items =
      cfg.equipmentCatalog.items.map itemScale := rfl
  rw [hitemsV, foldl_baseCost_map_scale]
  field_simp
  ring

/-- The CAPEX component and OPEX total of a returned block cost result,
expressed through the per-component helper functions. -/
lemma blockCost_fields (cfg : CostModelConfig) (block : BlockCharacteristics) (now : Int)
    (pen : PenRateEntry) (hp : findPenRate cfg block = some pen) :
    ∃ r, calculateBlockCost cfg block now = some r ∧
      r.capexComponent = calculateCAPEXAllocation cfg block ∧
      r.opexComponent.total =
        (calculateLaborCost cfg block).getD 0 + calculateConsumablesCost block +
          (calculateEnergyCost cfg block).getD 0 +
          (calculateMaintenanceCost cfg block).getD 0 +
          (calculateOverhead cfg block).getD 0 := by
  obtain ⟨r, hr⟩ := Option.isSome_iff_exists.mp
    (calculateBlockCost_isSome_of_findPenRate cfg block now pen hp)
  refine ⟨r, hr, ?_, ?_⟩
  all_goals
    have hred := hr
    simp only [calculateBlockCost, calculateLaborCost, calculateEquipmentCost,
      calculateEnergyCost, calculateMaintenanceCost, calculateOverhead, estimateMiningHours,
      hp, Option.map, optionSomeBind, optionPureBind, Option.pure_def,
      Option.some.injEq] at hred
    subst hred
  · rfl
  · simp only [calculateLaborCost, calculateEnergyCost, calculateMaintenanceCost,
      calculateOverhead, calculateEquipmentCost, estimateMiningHours, hp, Option.map,
      optionSomeBind, optionPureBind, Option.pure_def, Option.getD]

/-- Per block: the varied configuration's CAPEX+OPEX total exceeds the
base one by at least `totalEquipmentCapital/10000`. -/
lemma blockTotals_varied (cfg : CostModelConfig) (block : BlockCharacteristics) (now : Int)
    (hfxn : FxNonneg cfg) (hitems : ItemsWF cfg)
    (hpen : ∀ p ∈ cfg.projectParameters.penetrationRate, 0 ≤ p.metersPerHour)
    (hlen : 2 ≤ cfg.projectParameters.penetrationRate.length)
    (hav : 0 ≤ cfg.projectParameters.availability.planned ∧
      0 ≤ cfg.projectParameters.availability.mechanical ∧
      0 ≤ cfg.projectParameters.availability.operational)
    (ht : 0 < block.tonnage) (hsl : 0 ≤ block.strikeLength) (hw : 0 ≤ block.width) :
    ∃ rB rV, calculateBlockCost cfg block now = some rB ∧
      calculateBlockCost (variedCfg cfg) block now = some rV ∧
      rB.capexComponent.total + rB.opexComponent.total + totalEquipmentCapital cfg / 10000 ≤
        rV.capexComponent.total + rV.opexComponent.total := by
  obtain ⟨pen, hp⟩ := findPenRate_isSome_of_len cfg block hlen
  have hpV : findPenRate (variedCfg cfg) block = some pen := by
    rw [findPenRate_varied]; exact hp
  have hmem := findPenRate_mem cfg block pen hp
  have hoe := oeeOf_nonneg cfg hav
  have hh := miningHours_nonneg cfg block pen hpen hmem hoe hsl hw
  obtain ⟨rB, hrB, hcapB, hopB⟩ := blockCost_fields cfg block now pen hp
  obtain ⟨rV, hrV, hcapV, hopV⟩ := blockCost_fields (variedCfg cfg) block now pen hpV
  refine ⟨rB, rV, hrB, hrV, ?_⟩
  rw [hcapB, hcapV, hopB, hopV]
  rw [capex_varied cfg block ht.ne']
  rw [labor_varied, energy_varied]
  have hm := maintenance_varied_ge cfg block pen hp hfxn hitems hh
  have ho := overhead_varied_ge cfg block pen hp hfxn hitems hh
  linarith

/-- When every block cost computation succeeds, the block-cost map is the
association list of per-block results. -/
lemma buildBlockCosts_eq (cfg : CostModelConfig) (blocks : List BlockCharacteristics) (now : Int)
    (h : ∀ b ∈ blocks, (calculateBlockCost cfg b now).isSome = true) :
    buildBlockCosts cfg blocks now =
      some (blocks.map (fun b =>
        (b.blockId, (calculateBlockCost cfg b now).getD defaultBlockCostResult))) := by
  unfold buildBlockCosts
  induction blocks with
  | nil => rfl
  | cons b bs ih =>
    obtain ⟨v, hv⟩ := Option.isSome_iff_exists.mp (h b (List.mem_cons_self b bs))
    rw [List.mapM_cons]
    rw [ih (fun x hx => h x (List.mem_cons_of_mem b hx))]
    rw [hv]
    simp [hv]

/-- Last-binding-wins lookup on an association list built from blocks. -/
lemma mapGet_map (blocks : List BlockCharacteristics) (g : BlockCharacteristics → BlockCostResult)
    (k : String) :
    mapGet (blocks.map (fun b => (b.blockId, g b))) k =
      (blocks.reverse.find? (fun b => b.blockId = k)).map g := by
  unfold mapGet
  rw [← List.map_reverse]
  rw [List.find?_map]
  rw [Option.map_map]
  rfl

/-- A predicate has a match in a list iff it has one in its reverse. -/
lemma find?_isSome_reverse (blocks : List BlockCharacteristics) (p : BlockCharacteristics → Bool) :
    (blocks.reverse.find? p).isSome = (blocks.find? p).isSome := by
  by_cases h : ∃ b ∈ blocks, p b = true
  · rw [(List.find?_isSome).mpr (by simpa using h), (List.find?_isSome).mpr h]
  · have h1 : blocks.reverse.find? p = none := by
      rw [List.find?_eq_none]
      intro x hx
      exact fun hpx => h ⟨x, List.mem_reverse.mp hx, hpx⟩
    have h2 : blocks.find? p = none := by
      rw [List.find?_eq_none]
      intro x hx
      exact fun hpx => h ⟨x, hx, hpx⟩
    rw [h1, h2]

/-- The per-period cost fold is monotone (with slack) when every block's
costs compare with a uniform gap. -/
lemma periodFold_le (blocks : List BlockCharacteristics)
    (gB gV : BlockCharacteristics → BlockCostResult) (d : ℚ)
    (hgap : ∀ b ∈ blocks,
      (gB b).capexComponent.total + (gB b).opexComponent.total + d ≤
        (gV b).capexComponent.total + (gV b).opexComponent.total)
    (hd : 0 ≤ d) :
    ∀ (sched : List BlockSchedule) (aB aV : ℚ × ℚ) (e : ℚ),
      aB.1 + aB.2 + e ≤ aV.1 + aV.2 →
      (sched.foldl (periodStep blocks gB) aB).1 + (sched.foldl (periodStep blocks gB) aB).2 + e ≤
        (sched.foldl (periodStep blocks gV) aV).1 + (sched.foldl (periodStep blocks gV) aV).2 := by
  intro sched
  induction sched with
  | nil => intro aB aV e h; simpa using h
  | cons s rest ih =>
    intro aB aV e h
    simp only [List.foldl_cons]
    apply ih
    unfold periodStep
    rw [mapGet_map, mapGet_map]
    cases hfind : blocks.reverse.find? (fun b => b.blockId = s.blockId) with
    | none => simpa using h
    | some b =>
      have hmem : b ∈ blocks := List.mem_reverse.mp (List.mem_of_find?_eq_some hfind)
      have hfs : (blocks.find? (fun b => b.blockId = s.blockId)).isSome = true := by
        rw [← find?_isSome_reverse]
        rw [hfind]
        rfl
      obtain ⟨b2, hb2⟩ := Option.isSome_iff_exists.mp hfs
      rw [hb2]
      simp only [Option.map]
      have hg := hgap b hmem
      linarith

/-- With a resolvable scheduled entry, the per-period cost fold gains the
full per-block gap. -/
lemma periodFold_strict (blocks : List BlockCharacteristics)
    (gB gV : BlockCharacteristics → BlockCostResult) (d : ℚ)
    (hgap : ∀ b ∈ blocks,
      (gB b).capexComponent.total + (gB b).opexComponent.total + d ≤
        (gV b).capexComponent.total + (gV b).opexComponent.total)
    (hd : 0 ≤ d) :
    ∀ (sched : List BlockSchedule),
      (∃ s ∈ sched, ∃ b ∈ blocks, b.blockId = s.blockId) →
      ∀ (aB aV : ℚ × ℚ), aB.1 + aB.2 ≤ aV.1 + aV.2 →
      (sched.foldl (periodStep blocks gB) aB).1 + (sched.foldl (periodStep blocks gB) aB).2 + d ≤
        (sched.foldl (periodStep blocks gV) aV).1 + (sched.foldl (periodStep blocks gV) aV).2 := by
  intro sched
  induction sched with
  | nil => intro h; exact absurd h (by simp)
  | cons s rest ih =>
    intro hex aB aV h
    simp only [List.foldl_cons]
    cases hfind : blocks.reverse.find? (fun b => b.blockId = s.blockId) with
    | some b =>
      have hmem : b ∈ blocks := List.mem_reverse.mp (List.mem_of_find?_eq_some hfind)
      have hfs : (blocks.find? (fun b => b.blockId = s.blockId)).isSome = true := by
        rw [← find?_isSome_reverse]
        rw [hfind]
        rfl
      obtain ⟨b2, hb2⟩ := Option.isSome_iff_exists.mp hfs
      apply periodFold_le blocks gB gV d hgap hd
      unfold periodStep
      rw [mapGet_map, mapGet_map, hfind, hb2]
      simp only [Option.map]
      have hg := hgap b hmem
      linarith
    | none =>
      have hstep : ∀ g : BlockCharacteristics → BlockCostResult,
          periodStep blocks g aB s = aB ∧ periodStep blocks g aV s = aV := by
        intro g
        constructor <;>
          (unfold periodStep
           rw [mapGet_map, hfind]
           rfl)
      obtain ⟨s0, hs0, b0, hb0, hid⟩ := hex
      rcases List.mem_cons.mp hs0 with hs0eq | hs0rest
      · exfalso
        subst hs0eq
        have : blocks.reverse.find? (fun b => b.blockId = s0.blockId) ≠ none := by
          intro hn
          rw [List.find?_eq_none] at hn
          exact absurd (by simpa using hid) (by simpa using hn b0 (List.mem_reverse.mpr hb0))
        exact this hfind
      · rw [(hstep gB).1, (hstep gV).2]
        exact ih ⟨s0, hs0rest, b0, hb0, hid⟩ aB aV h

/-- The net cash flow of one generated period record as the (negated)
period cost fold. -/
lemma periodRecord_net (blocks : List BlockCharacteristics) (schedule : List BlockSchedule)
    (g : BlockCharacteristics → BlockCostResult) (ym : ℕ × ℕ) :
    (periodRecord blocks schedule (blocks.map (fun b => (b.blockId, g b))) ym).netCashflow =
      -(((schedule.filter (fun s => s.period = periodString ym.1 ym.2)).foldl
          (periodStep blocks g) (0, 0)).1 +
        ((schedule.filter (fun s => s.period = periodString ym.1 ym.2)).foldl
          (periodStep blocks g) (0, 0)).2) := rfl

/-- The cumulative pass leaves the net cash flows unchanged. -/
lemma accumulate_map_net (l : List ProjectCashflow) :
    ∀ a : ℚ, (accumulate a l).map (fun cf => cf.netCashflow) =
      l.map (fun cf => cf.netCashflow) := by
  induction l with
  | nil => intro a; rfl
  | cons cf rest ih => intro a; simp [accumulate, ih]

/-- NPV monotonicity: pointwise-dominated net series give dominated NPV. -/
lemma npvFrom_map_le {α : Type} (dr : ℝ) (hdr : 0 < 1 + dr) (f g : α → ℝ) (l : List α) :
    (∀ x ∈ l, f x ≤ g x) → ∀ i : ℕ, npvFrom dr i (l.map f) ≤ npvFrom dr i (l.map g) := by
  induction l with
  | nil => intro _ i; simp [npvFrom]
  | cons x xs ih =>
    intro hfg i
    simp only [List.map_cons, npvFrom]
    have hD : 0 < (1 + dr) ^ ((i : ℝ) / 12) := Real.rpow_pos_of_pos hdr _
    apply add_le_add
    · exact (div_le_div_iff_of_pos_right hD).mpr (hfg x (List.mem_cons_self x xs))
    · exact ih (fun y hy => hfg y (List.mem_cons_of_mem x hy)) (i + 1)

/-- Strict NPV monotonicity with one strictly dominated period. -/
lemma npvFrom_map_lt {α : Type} (dr : ℝ) (hdr : 0 < 1 + dr) (f g : α → ℝ) (l : List α) :
    (∀ x ∈ l, f x ≤ g x) → ∀ x0 ∈ l, f x0 < g x0 →
      ∀ i : ℕ, npvFrom dr i (l.map f) < npvFrom dr i (l.map g) := by
  induction l with
  | nil => intro _ x0 hx0; exact absurd hx0 (by simp)
  | cons x xs ih =>
    intro hfg x0 hx0 hstrict i
    simp only [List.map_cons, npvFrom]
    have hD : 0 < (1 + dr) ^ ((i : ℝ) / 12) := Real.rpow_pos_of_pos hdr _
    rcases List.mem_cons.mp hx0 with heq | hmem
    · subst heq
      apply add_lt_add_of_lt_of_le
      · exact (div_lt_div_iff_of_pos_right hD).mpr hstrict
      · exact npvFrom_map_le dr hdr f g xs
          (fun y hy => hfg y (List.mem_cons_of_mem x0 hy)) (i + 1)
    · apply add_lt_add_of_le_of_lt
      · exact (div_le_div_iff_of_pos_right hD).mpr (hfg x (List.mem_cons_self x xs))
      · exact ih (fun y hy => hfg y (List.mem_cons_of_mem x hy)) x0 hmem hstrict (i + 1)

/-- Nonempty catalog of positive costs gives positive total capital. -/
lemma totalEquipmentCapital_pos (cfg : CostModelConfig) (hitems : ItemsWF cfg)
    (hne : cfg.equipmentCatalog.items ≠ []) : 0 < totalEquipmentCapital cfg := by
  unfold totalEquipmentCapital
  rw [foldl_add_eq_sum]
  rw [zero_add]
  apply List.sum_pos
  · intro q hq
    obtain ⟨item, hmem, heq⟩ := List.mem_map.mp hq
    rw [← heq]
    exact (hitems item hmem).1
  · simpa using hne

/-- The cash-flow series as the cumulative pass over the generated period
records, when all block costs succeed. -/
lemma generateCashflow_eq (cfg : CostModelConfig) (blocks : List BlockCharacteristics)
    (schedule : List BlockSchedule) (now : Int)
    (h : ∀ b ∈ blocks, (calculateBlockCost cfg b now).isSome = true) :
    generateCashflow cfg blocks schedule now =
      some (accumulate 0 ((periodsList cfg).map (periodRecord blocks schedule
        (blocks.map (fun b =>
          (b.blockId, (calculateBlockCost cfg b now).getD defaultBlockCostResult)))))) := by
  unfold generateCashflow
  rw [buildBlockCosts_eq cfg blocks now h]
  rfl

/-- The summary NPV is the discounted sum of the net cash flows with
fractional-year exponents. -/
lemma generateSummary_npv (cfg : CostModelConfig) (cfs : List ProjectCashflow) :
    (generateSummary cfg cfs).npv =
      npvFrom (cfg.aggregatorSettings.discountRate : ℝ) 0
        (cfs.map (fun cf => (cf.netCashflow : ℝ))) := rfl

/-- C9: the `equipment_cost` sensitivity at +10% scales every catalog
item base cost by exactly 1.10 with all other configuration fields
unchanged; and for any equipment-cost-dominated schedule (nonempty catalog
of well-formed positive-cost items, at least one scheduled block resolvable
in the generated horizon, positive tonnage, nonnegative geometry, rates and
availabilities, discount rate above -100%), the varied project NPV is
strictly below the base NPV. -/
theorem C9_equipment_sensitivity :
    (∀ cfg : CostModelConfig, applyVariation cfg "equipment_cost" 10 = variedCfg cfg) ∧
    (∀ (cfg : CostModelConfig) (blocks : List BlockCharacteristics)
      (schedule : List BlockSchedule) (now : Int),
      FxNonneg cfg → ItemsWF cfg → cfg.equipmentCatalog.items ≠ [] →
      (∀ p ∈ cfg.projectParameters.penetrationRate, 0 ≤ p.metersPerHour) →
      2 ≤ cfg.projectParameters.penetrationRate.length →
      (0 ≤ cfg.projectParameters.availability.planned ∧
        0 ≤ cfg.projectParameters.availability.mechanical ∧
        0 ≤ cfg.projectParameters.availability.operational) →
      (∀ b ∈ blocks, 0 < b.tonnage ∧ 0 ≤ b.strikeLength ∧ 0 ≤ b.width) →
      (-1 : ℚ) < cfg.aggregatorSettings.discountRate →
      (∃ s ∈ schedule, (∃ b ∈ blocks, b.blockId = s.blockId) ∧
        ∃ ym ∈ periodsList cfg, s.period = periodString ym.1 ym.2) →
      ∃ nV nB : ℝ,
        projectNPV (applyVariation cfg "equipment_cost" 10) blocks schedule now = some nV ∧
        projectNPV cfg blocks schedule now = some nB ∧ nV < nB) := by
  refine ⟨applyVariation_equipment, ?_⟩
  intro cfg blocks schedule now hfxn hitems hne hpen hlen hav hblocks hdr hsched
  rw [applyVariation_equipment]
  have hsomeB : ∀ b ∈ blocks, (calculateBlockCost cfg b now).isSome = true := by
    intro b hb
    obtain ⟨pen, hp⟩ := findPenRate_isSome_of_len cfg b hlen
    exact calculateBlockCost_isSome_of_findPenRate cfg b now pen hp
  have hlenV : 2 ≤ (variedCfg cfg).projectParameters.penetrationRate.length := hlen
  have hsomeV : ∀ b ∈ blocks, (calculateBlockCost (variedCfg cfg) b now).isSome = true := by
    intro b hb
    obtain ⟨pen, hp⟩ := findPenRate_isSome_of_len (variedCfg cfg) b hlenV
    exact calculateBlockCost_isSome_of_findPenRate (variedCfg cfg) b now pen hp
  have hgap : ∀ b ∈ blocks,
      ((calculateBlockCost cfg b now).getD defaultBlockCostResult).capexComponent.total +
        ((calculateBlockCost cfg b now).getD defaultBlockCostResult).opexComponent.total +
        totalEquipmentCapital cfg / 10000 ≤
      ((calculateBlockCost (variedCfg cfg) b now).getD
          defaultBlockCostResult).capexComponent.total +
        ((calculateBlockCost (variedCfg cfg) b now).getD
          defaultBlockCostResult).opexComponent.total := by
    intro b hb
    obtain ⟨ht, hsl, hw⟩ := hblocks b hb
    obtain ⟨rB, rV, hrB, hrV, hineq⟩ :=
      blockTotals_varied cfg b now hfxn hitems hpen hlen hav ht hsl hw
    rw [hrB, hrV]
    simpa using hineq
  have hTpos := totalEquipmentCapital_pos cfg hitems hne
  have hd : 0 ≤ totalEquipmentCapital cfg / 10000 := by
    apply div_nonneg hTpos.le
    norm_num
  have hcfB := generateCashflow_eq cfg blocks schedule now hsomeB
  have hcfV := generateCashflow_eq (variedCfg cfg) blocks schedule now hsomeV
  have hplV : periodsList (variedCfg cfg) = periodsList cfg := rfl
  rw [hplV] at hcfV
  unfold projectNPV
  rw [hcfV, hcfB]
  simp only [Option.map]
  refine ⟨_, _, rfl, rfl, ?_⟩
  rw [generateSummary_npv, generateSummary_npv]
  have haggV : (variedCfg cfg).aggregatorSettings = cfg.aggregatorSettings := rfl
  rw [haggV]
  have hnet : ∀ g : BlockCharacteristics → BlockCostResult,
      ((accumulate 0 ((periodsList cfg).map (periodRecord blocks schedule
        (blocks.map (fun b => (b.blockId, g b)))))).map (fun cf => (cf.netCashflow : ℝ))) =
      (periodsList cfg).map (fun ym =>
        (((periodRecord blocks schedule (blocks.map (fun b => (b.blockId, g b)))
            ym).netCashflow : ℚ) : ℝ)) := by
    intro g
    have h1 : ∀ l : List ProjectCashflow,
        l.map (fun cf => (cf.netCashflow : ℝ)) =
          (l.map (fun cf => cf.netCashflow)).map (fun q : ℚ => (q : ℝ)) := by
      intro l
      rw [List.map_map]
      rfl
    rw [h1, accumulate_map_net, List.map_map, List.map_map]
    rfl
  rw [hnet, hnet]
  have hdrR : 0 < 1 + (cfg.aggregatorSettings.discountRate : ℝ) := by
    have hcast : (-1 : ℝ) < (cfg.aggregatorSettings.discountRate : ℝ) := by
      exact_mod_cast hdr
    linarith
  obtain ⟨s, hs, ⟨b0, hb0, hbid⟩, ym0, hym0, hper⟩ := hsched
  apply npvFrom_map_lt _ hdrR _ _ _ ?_ ym0 hym0 ?_
  · intro ym _
    rw [periodRecord_net blocks schedule
        (fun b => (calculateBlockCost (variedCfg cfg) b now).getD defaultBlockCostResult) ym,
      periodRecord_net blocks schedule
        (fun b => (calculateBlockCost cfg b now).getD defaultBlockCostResult) ym]
    apply Rat.cast_le.mpr
    have hle := periodFold_le blocks
      (fun b => (calculateBlockCost cfg b now).getD defaultBlockCostResult)
      (fun b => (calculateBlockCost (variedCfg cfg) b now).getD defaultBlockCostResult)
      (totalEquipmentCapital cfg / 10000) hgap hd
      (schedule.filter (fun s' => s'.period = periodString ym.1 ym.2)) (0, 0) (0, 0) 0
      (by norm_num)
    linarith
  · rw [periodRecord_net blocks schedule
        (fun b => (calculateBlockCost (variedCfg cfg) b now).getD defaultBlockCostResult) ym0,
      periodRecord_net blocks schedule
        (fun b => (calculateBlockCost cfg b now).getD defaultBlockCostResult) ym0]
    apply Rat.cast_lt.mpr
    have hsf : s ∈ schedule.filter (fun s' => s'.period = periodString ym0.1 ym0.2) := by
      apply List.mem_filter.mpr
      exact ⟨hs, by simp [hper]⟩
    have hstrict := periodFold_strict blocks
      (fun b => (calculateBlockCost cfg b now).getD defaultBlockCostResult)
      (fun b => (calculateBlockCost (variedCfg cfg) b now).getD defaultBlockCostResult)
      (totalEquipmentCapital cfg / 10000) hgap hd
      (schedule.filter (fun s' => s'.period = periodString ym0.1 ym0.2))
      ⟨s, hsf, b0, hb0, hbid⟩ (0, 0) (0, 0) (by norm_num)
    have hdpos : 0 < totalEquipmentCapital cfg / 10000 := by
      apply div_pos hTpos
      norm_num
    linarith

/-- C9 witness: the NPV decrease on a concrete one-item, one-block,
one-period schedule. -/
theorem C9_equipment_sensitivity_witness :
    applyVariation c9cfg "equipment_cost" 10 = variedCfg c9cfg ∧
    ∃ nV nB : ℝ,
      projectNPV (applyVariation c9cfg "equipment_cost" 10) [c9block] c9schedule 0 = some nV ∧
      projectNPV c9cfg [c9block] c9schedule 0 = some nB ∧ nV < nB := by
  refine ⟨C9_equipment_sensitivity.1 c9cfg, ?_⟩
  apply C9_equipment_sensitivity.2 c9cfg [c9block] c9schedule 0
  · constructor
    · norm_num [c9cfg, baseCfg]
    · refine ⟨by norm_num [c9cfg, baseCfg], by norm_num [c9cfg, baseCfg],
        by norm_num [c9cfg, baseCfg]⟩
  · intro item hmem
    simp only [c9cfg, baseCfg, List.mem_singleton] at hmem
    subst hmem
    refine ⟨by norm_num, by norm_num, by norm_num⟩
  · simp [c9cfg, baseCfg]
  · intro p hp
    simp only [c9cfg, baseCfg, List.mem_cons, List.mem_singleton] at hp
    rcases hp with h | h | h | h
    all_goals first
      | (subst h; norm_num)
      | exact absurd h (by simp)
  · norm_num [c9cfg, baseCfg]
  · refine ⟨by norm_num [c9cfg, baseCfg], by norm_num [c9cfg, baseCfg],
      by norm_num [c9cfg, baseCfg]⟩
  · intro b hb
    simp only [List.mem_singleton] at hb
    subst hb
    refine ⟨by norm_num [c9block], by norm_num [c9block], by norm_num [c9block]⟩
  · norm_num [c9cfg, baseCfg]
  · refine ⟨⟨"B9", "2024-01", 1⟩, ?_, ⟨c9block, List.mem_singleton.mpr rfl, rfl⟩,
      (2024, 1), ?_, ?_⟩
    · simp [c9schedule]
    · decide
    · decide
